import Mathlib

/-!
Shallow embedding of the TelegramFUSE filesystem (src/Telegram/fuse_impl.py and
src/Telegram/TelegramFUSE.py).

Modelling conventions:
* Byte strings (Python `bytes` / `bytearray`) are `List Nat`.
* The sqlite tables `inodes`, `contents`, `telegram_messages` are lists of rows;
  a SQL `WHERE` clause is a `filter`, `UPDATE` a `map`, `DELETE` a `filter`-out.
  `get_row` / `get_rows` keep the source's "no row" / "non-unique" failure
  signals.  The `contents` AUTOINCREMENT rowid is threaded through the state.
* Python exceptions are `Except FsErr`; `pyfuse3.FUSEError(errno)` is
  `FsErr.fuse errno`, the custom `NoSuchRowError` / `NoUniqueValueError` are
  separate constructors (the source converts only some of them to `FUSEError`).
* The Telegram channel is the `remote` list of messages; the channel assigns
  consecutive increasing message ids (append-only store), threaded through
  `nextMsgId`.  Fernet encryption is an abstract `EncScheme`: `enc` produces the
  self-describing ciphertext, `dec` returns `none` on an authentication failure
  (the `InvalidToken` exception).
* The `cachetools.LRUCache` is modelled as an association list.  Its
  size-triggered eviction only ever removes entries and no claim below depends
  on eviction timing, so eviction is not modelled.
* In Python 3 a `bytes` value never equals a `str` value; the source compares
  the bytes `name` argument with the str literals '.' and '..' in `lookup`,
  which is always false.  `pyStrEqBytes` embeds that comparison.
* A failed upcall leaves uncommitted statements pending on the sqlite
  connection; per the spec's metadata-store contract they are treated as rolled
  back, so an error simply discards the candidate state.
-/

deriving instance DecidableEq for Except

namespace TgFuse

/-- errno values used by the source (Linux numbering). -/
def ENOENT : Nat := 2
def EIO : Nat := 5
def ENOTDIR : Nat := 20
def EISDIR : Nat := 21
def EINVAL : Nat := 22
def ENOTEMPTY : Nat := 39

/-- pyfuse3.ROOT_INODE -/
def ROOT_INODE : Nat := 1

/-- FILE_MAX_SIZE_BYTES = int(2 * 1e9) in TelegramFUSE.py -/
def FILE_MAX_SIZE_BYTES : Nat := 2000000000

/-- The bytes of the literal b'..' inserted by init_tables. -/
def dotdot : List Nat := [46, 46]

/-- stat.S_IFMT mask and the directory type bit. -/
def S_IFMT : Nat := 61440
def S_IFDIR : Nat := 16384

/-- stat.S_ISDIR -/
def S_ISDIR (mode : Nat) : Bool := mode &&& S_IFMT == S_IFDIR

/-- Mode of the root inode inserted by init_tables:
S_IFDIR or rwxr-xr-x without group/other write (0o40755). -/
def rootMode : Nat := 16877

/-- Errors: FUSEError carries an errno; the rest are the Python exceptions the
source can raise or catch (sqlite row-count errors, sqlite UNIQUE violations,
Fernet InvalidToken, failed message fetches). -/
inductive FsErr where
  | fuse (errno : Nat)
  | noSuchRow
  | noUniqueValue
  | uniqueViolation
  | invalidToken
  | downloadError
  deriving DecidableEq, Repr

/-- Row of the `inodes` table. -/
structure InodeRow where
  id : Nat
  uid : Nat
  gid : Nat
  mode : Nat
  mtime_ns : Nat
  atime_ns : Nat
  ctime_ns : Nat
  target : Option (List Nat)
  size : Nat
  rdev : Nat
  deriving DecidableEq, Repr

/-- Row of the `contents` table. -/
structure ContentsRow where
  rowid : Nat
  name : List Nat
  inode : Nat
  parent_inode : Nat
  deriving DecidableEq, Repr

/-- Row of the `telegram_messages` table. -/
structure MsgRow where
  id : Nat
  inode : Nat
  deriving DecidableEq, Repr

/-- A message stored on the Telegram channel: its id and the chunk payload. -/
structure RemoteMsg where
  id : Nat
  payload : List Nat
  deriving DecidableEq, Repr

/-- The whole system state: the three sqlite tables (with the contents
AUTOINCREMENT counter), the FSO singletons (open-count map, write buffer) and
the remote-client state (channel messages, next message id, content cache). -/
structure FsState where
  inodes : List InodeRow
  contents : List ContentsRow
  telegram_messages : List MsgRow
  nextRowid : Nat
  inode_open_count : List (Nat × Int)
  write_buffer : List Nat
  remote : List RemoteMsg
  nextMsgId : Nat
  cached_files : List (Nat × List Nat)
  deriving DecidableEq, Repr

/-- pyfuse3.EntryAttributes as filled in by Operations.getattr. -/
structure EntryAttributes where
  st_ino : Nat
  generation : Nat
  entry_timeout : Nat
  attr_timeout : Nat
  st_mode : Nat
  st_nlink : Nat
  st_uid : Nat
  st_gid : Nat
  st_rdev : Nat
  st_size : Nat
  st_blksize : Nat
  st_blocks : Nat
  st_atime_ns : Nat
  st_mtime_ns : Nat
  st_ctime_ns : Nat
  deriving DecidableEq, Repr

instance : Inhabited EntryAttributes :=
  ⟨⟨0, 0, 0, 0, 0, 0, 0, 0, 0, 0, 0, 0, 0, 0, 0⟩⟩

/-- The attribute values passed into setattr. -/
structure Attr where
  st_size : Nat
  st_mode : Nat
  st_uid : Nat
  st_gid : Nat
  st_atime_ns : Nat
  st_mtime_ns : Nat
  st_ctime_ns : Nat
  deriving DecidableEq, Repr

/-- The pyfuse3 SetattrFields flags. -/
structure SetattrFields where
  update_size : Bool
  update_mode : Bool
  update_uid : Bool
  update_gid : Bool
  update_atime : Bool
  update_mtime : Bool
  update_ctime : Bool
  deriving DecidableEq, Repr

/-- Fernet encryption, abstractly: `keySet` is whether ENCRYPTION_KEY is
configured; `dec` returns `none` when authentication fails (InvalidToken). -/
structure EncScheme where
  keySet : Bool
  enc : List Nat → List Nat
  dec : List Nat → Option (List Nat)

/-- Operations.get_row: unique-row query (raises NoSuchRowError on zero rows,
NoUniqueValueError on more than one). -/
def getRowList {α : Type} (rows : List α) : Except FsErr α :=
  match rows with
  | [] => .error .noSuchRow
  | [r] => .ok r
  | _ :: _ :: _ => .error .noUniqueValue

/-- Operations.get_rows: raises NoSuchRowError when the result set is empty. -/
def getRowsList {α : Type} (rows : List α) : Except FsErr (List α) :=
  match rows with
  | [] => .error .noSuchRow
  | rs => .ok rs

/-- Dictionary lookup on an association list keyed by Nat. -/
def lookupAssoc {α : Type} (l : List (Nat × α)) (k : Nat) : Option α :=
  match l.find? (fun p => p.1 == k) with
  | some p => some p.2
  | none => none

/-- Dictionary store: replace the entry if the key is present, else append. -/
def setAssoc {α : Type} (l : List (Nat × α)) (k : Nat) (v : α) : List (Nat × α) :=
  if l.any (fun p => p.1 == k) then
    l.map (fun p => if p.1 == k then (k, v) else p)
  else l ++ [(k, v)]

/-- Dictionary delete (`pop` / `del`). -/
def removeAssoc {α : Type} (l : List (Nat × α)) (k : Nat) : List (Nat × α) :=
  l.filter (fun p => p.1 != k)

/-- Python `k in d`. -/
def hasKey {α : Type} (l : List (Nat × α)) (k : Nat) : Bool :=
  l.any (fun p => p.1 == k)

/-- defaultdict(int) read: missing keys read as 0. -/
def countOf (l : List (Nat × Int)) (k : Nat) : Int :=
  (lookupAssoc l k).getD 0

/-- defaultdict(int) `d[k] += delta`: inserts the key when absent. -/
def bumpCount (l : List (Nat × Int)) (k : Nat) (d : Int) : List (Nat × Int) :=
  match lookupAssoc l k with
  | some v => setAssoc l k (v + d)
  | none => l ++ [(k, d)]

/-- Python slice data[offset : offset+length] for natural offset/length
(out-of-range indices clamp). -/
def pySlice (data : List Nat) (offset length : Nat) : List Nat :=
  (data.drop offset).take length

/-- Python 3 `str == bytes` comparison: always False.  The source's lookup
compares the bytes argument `name` against the str literals '.' and '..',
so those branches never fire. -/
def pyStrEqBytes (_s : String) (_b : List Nat) : Bool := false

/-- sqlite rowid assignment for `INSERT INTO inodes`: cursor.lastrowid is
max existing id + 1. -/
def nextInodeId (s : FsState) : Nat :=
  (s.inodes.map (fun r => r.id)).foldr Nat.max 0 + 1

/-- `UPDATE inodes SET ... WHERE id=?` (zero matching rows update nothing). -/
def updateInode (s : FsState) (i : Nat) (f : InodeRow → InodeRow) : FsState :=
  { s with inodes := s.inodes.map (fun r => if r.id == i then f r else r) }

/-- `INSERT INTO contents (name, inode, parent_inode)`: sqlite raises an
IntegrityError when the UNIQUE (name, parent_inode) constraint is violated. -/
def insertContents (s : FsState) (name : List Nat) (inode parent : Nat) :
    Except FsErr FsState :=
  if s.contents.any (fun c => c.name == name && c.parent_inode == parent) then
    .error .uniqueViolation
  else
    .ok { s with
          contents := s.contents ++ [⟨s.nextRowid, name, inode, parent⟩],
          nextRowid := s.nextRowid + 1 }

/-- Operations.init_tables: create the tables, insert the root inode and its
self-referential b'..' entry. -/
def init_tables (uid gid now_ns : Nat) : FsState :=
  { inodes := [⟨ROOT_INODE, uid, gid, rootMode, now_ns, now_ns, now_ns, none, 0, 0⟩],
    contents := [⟨1, dotdot, ROOT_INODE, ROOT_INODE⟩],
    telegram_messages := [],
    nextRowid := 2,
    inode_open_count := [],
    write_buffer := [],
    remote := [],
    nextMsgId := 0,
    cached_files := [] }

namespace TelegramFileClient

/-- The chunk split performed by TelegramFileClient.upload_file: payloads over
FILE_MAX_SIZE_BYTES are cut into `(len + FILE_MAX_SIZE_BYTES) // FILE_MAX_SIZE_BYTES`
slices `file_bytes[i*M : (i+1)*M]`; smaller payloads are a single chunk. -/
def uploadChunks (file_bytes : List Nat) : List (List Nat) :=
  if file_bytes.length > FILE_MAX_SIZE_BYTES then
    let num_chunks := (file_bytes.length + FILE_MAX_SIZE_BYTES) / FILE_MAX_SIZE_BYTES
    (List.range num_chunks).map (fun i =>
      (file_bytes.drop (i * FILE_MAX_SIZE_BYTES)).take FILE_MAX_SIZE_BYTES)
  else [file_bytes]

/-- The messages produced by posting the chunks to the channel, in send order;
the append-only channel assigns consecutive increasing message ids. -/
def mkRemoteMsgs (m : Nat) (chunks : List (List Nat)) : List RemoteMsg :=
  match chunks with
  | [] => []
  | c :: cs => ⟨m, c⟩ :: mkRemoteMsgs (m + 1) cs

/-- TelegramFileClient.get_cached_file: a hit requires a present, non-empty
cache entry. -/
def get_cached_file (cached : List (Nat × List Nat)) (fh : Nat) : Option (List Nat) :=
  match lookupAssoc cached fh with
  | some v => if v == [] then none else some v
  | none => none

/-- TelegramFileClient.upload_file: evict the cache entry for fh, encrypt the
payload when a key is configured, split into chunks, post each chunk and return
the new message ids in produced order.  (The per-chunk object names
"file_name_partN.txt" and the dead `fname_to_msgs` map are not modelled.) -/
def upload_file (es : EncScheme) (s : FsState) (bytesio : List Nat) (fh : Nat) :
    List Nat × FsState :=
  let s0 := { s with cached_files := removeAssoc s.cached_files fh }
  let file_bytes := if es.keySet then es.enc bytesio else bytesio
  let chunks := uploadChunks file_bytes
  let msgs := mkRemoteMsgs s0.nextMsgId chunks
  (msgs.map (fun m => m.id),
   { s0 with remote := s0.remote ++ msgs, nextMsgId := s0.nextMsgId + chunks.length })

/-- TelegramFileClient.download_file: cache hit short-circuits; otherwise fetch
each message in the given order (a missing message makes download_media throw),
concatenate payloads, decrypt when a key is configured (InvalidToken when
authentication fails), and store the plaintext in the cache. -/
def download_file (es : EncScheme) (s : FsState) (fh : Nat) (msgIds : List Nat) :
    Except FsErr (List Nat × FsState) :=
  match get_cached_file s.cached_files fh with
  | some v => .ok (v, s)
  | none =>
    match msgIds.mapM (fun i => s.remote.find? (fun m => m.id == i)) with
    | none => .error .downloadError
    | some msgs =>
      let readBytes := (msgs.map (fun m => m.payload)).flatten
      match (if es.keySet then es.dec readBytes else some readBytes) with
      | none => .error .invalidToken
      | some plain =>
        .ok (plain, { s with cached_files := setAssoc s.cached_files fh plain })

/-- TelegramFileClient.delete_messages: remove the given ids from the channel. -/
def delete_messages (remote : List RemoteMsg) (ids : List Nat) : List RemoteMsg :=
  remote.filter (fun m => !(ids.contains m.id))

end TelegramFileClient

namespace Operations

/-- Operations.getattr: read the unique inodes row (NoSuchRow becomes ENOENT),
st_nlink is the count of contents rows referencing the inode. -/
def getattr (s : FsState) (inode : Nat) : Except FsErr EntryAttributes :=
  match getRowList (s.inodes.filter (fun r => r.id == inode)) with
  | .error .noSuchRow => .error (.fuse ENOENT)
  | .error e => .error e
  | .ok row =>
    .ok { st_ino := inode, generation := 0, entry_timeout := 300, attr_timeout := 300,
          st_mode := row.mode,
          st_nlink := (s.contents.filter (fun c => c.inode == inode)).length,
          st_uid := row.uid, st_gid := row.gid, st_rdev := row.rdev,
          st_size := row.size, st_blksize := 512, st_blocks := 1,
          st_atime_ns := row.atime_ns, st_mtime_ns := row.mtime_ns,
          st_ctime_ns := row.ctime_ns }

/-- Operations.lookup.  The '.'/'..' special cases compare the bytes name with
str literals and never fire (pyStrEqBytes); the generic branch finds the
contents row for (name, parent) and converts NoSuchRow to ENOENT. -/
def lookup (s : FsState) (inode_p : Nat) (name : List Nat) :
    Except FsErr EntryAttributes :=
  if pyStrEqBytes "." name then
    getattr s inode_p
  else if pyStrEqBytes ".." name then
    match getRowList (s.contents.filter (fun c => c.inode == inode_p)) with
    | .error e => .error e
    | .ok row => getattr s row.parent_inode
  else
    match getRowList (s.contents.filter (fun c => c.name == name && c.parent_inode == inode_p)) with
    | .error .noSuchRow => .error (.fuse ENOENT)
    | .error e => .error e
    | .ok row => getattr s row.inode

/-- Operations.readlink (get_row errors propagate unconverted). -/
def readlink (s : FsState) (inode : Nat) : Except FsErr (Option (List Nat)) :=
  (getRowList (s.inodes.filter (fun r => r.id == inode))).map (fun r => r.target)

/-- Operations.opendir: the inode is the handle. -/
def opendir (_s : FsState) (inode : Nat) : Nat := inode

/-- Operations.access: always True. -/
def access (_s : FsState) (_inode _mode : Nat) : Bool := true

/-- Operations.readdir: contents rows under the directory with rowid above the
cursor (an incoming 0 is treated as -1), in rowid order; each entry is emitted
with the child's attributes.  In this embedding the contents list is already in
ascending rowid order (inserts append with a strictly increasing counter), so
ORDER BY rowid is the identity. -/
def readdir (s : FsState) (inode off : Nat) :
    Except FsErr (List (List Nat × EntryAttributes × Nat)) :=
  let offI : Int := if off == 0 then -1 else (off : Int)
  let rows := s.contents.filter (fun c => c.parent_inode == inode && offI < (c.rowid : Int))
  rows.mapM (fun c => (getattr s c.inode).map (fun e => (c.name, e, c.rowid)))

/-- Operations.statfs. -/
def statfs (s : FsState) : Nat × Nat × Nat × Nat × Nat × Nat × Nat × Nat :=
  let size := (s.inodes.map (fun r => r.size)).sum
  let blocks := size / 512
  let files := s.inodes.length
  (512, 512, blocks, Nat.max blocks 1024, Nat.max blocks 1024,
   files, Nat.max files 100, Nat.max files 100)

/-- Operations.delete_msgs_for_inode: collect the message ids mapped to the
inode and delete them from the channel (the DB rows are NOT touched here). -/
def delete_msgs_for_inode (s : FsState) (fh : Nat) : FsState :=
  { s with remote := (TelegramFileClient.delete_messages s.remote
      ((s.telegram_messages.filter (fun m => m.inode == fh)).map (fun m => m.id))) }

/-- Operations._remove: ENOTEMPTY when the target inode has children;
then the two guarded deletion branches exactly as in the source (note both
require the inode to be absent from the open-count map). -/
def _remove (s : FsState) (inode_p : Nat) (name : List Nat) (entry : EntryAttributes) :
    Except FsErr FsState :=
  if 0 < (s.contents.filter (fun c => c.parent_inode == entry.st_ino)).length then
    .error (.fuse ENOTEMPTY)
  else
    let s1 :=
      if entry.st_nlink == 1 && !(hasKey s.inode_open_count entry.st_ino) then
        let a := { s with inodes := s.inodes.filter (fun r => r.id != entry.st_ino) }
        let b := delete_msgs_for_inode a entry.st_ino
        let c := { b with contents := (b.contents.filter
                    (fun r => !(r.name == name && r.parent_inode == inode_p))) }
        { c with telegram_messages := (c.telegram_messages.filter
                    (fun m => m.inode != entry.st_ino)) }
      else s
    let s2 :=
      if entry.st_nlink > 1 && !(hasKey s1.inode_open_count entry.st_ino) then
        { s1 with contents := (s1.contents.filter
                    (fun r => !(r.name == name && r.parent_inode == inode_p))) }
      else s1
    .ok s2

/-- Operations.unlink: EISDIR on directories, else _remove. -/
def unlink (s : FsState) (inode_p : Nat) (name : List Nat) : Except FsErr FsState :=
  match lookup s inode_p name with
  | .error e => .error e
  | .ok entry =>
    if S_ISDIR entry.st_mode then .error (.fuse EISDIR)
    else _remove s inode_p name entry

/-- Operations.rmdir: ENOTDIR on non-directories, else _remove. -/
def rmdir (s : FsState) (inode_p : Nat) (name : List Nat) : Except FsErr FsState :=
  match lookup s inode_p name with
  | .error e => .error e
  | .ok entry =>
    if !(S_ISDIR entry.st_mode) then .error (.fuse ENOTDIR)
    else _remove s inode_p name entry

/-- Operations._replace (rename over an existing target): ENOTEMPTY when the
target has children; retarget the destination contents row to the source inode,
delete the source row, and when the target inode had nlink 1 and is not open,
delete its inode row and its remote messages (its telegram_messages DB rows are
left in place). -/
def _replace (s : FsState) (inode_p_old : Nat) (name_old : List Nat)
    (inode_p_new : Nat) (name_new : List Nat)
    (entry_old entry_new : EntryAttributes) : Except FsErr FsState :=
  if 0 < (s.contents.filter (fun c => c.parent_inode == entry_new.st_ino)).length then
    .error (.fuse ENOTEMPTY)
  else
    let s1 := { s with contents := (s.contents.map (fun (c : ContentsRow) =>
      if c.name == name_new && c.parent_inode == inode_p_new then
        { c with inode := entry_old.st_ino } else c)) }
    let s2 := { s1 with contents := (s1.contents.filter
      (fun c => !(c.name == name_old && c.parent_inode == inode_p_old))) }
    if entry_new.st_nlink == 1 && !(hasKey s2.inode_open_count entry_new.st_ino) then
      let s3 := { s2 with inodes := s2.inodes.filter (fun r => r.id != entry_new.st_ino) }
      .ok (delete_msgs_for_inode s3 entry_new.st_ino)
    else .ok s2

/-- Operations.rename: EINVAL on nonzero flags; when the destination exists,
_replace, otherwise update the source contents row's (name, parent) in place.
The UPDATE's UNIQUE constraint cannot fire on that path because the preceding
lookup of (name_new, parent_new) returned ENOENT, so it is not modelled. -/
def rename (s : FsState) (inode_p_old : Nat) (name_old : List Nat)
    (inode_p_new : Nat) (name_new : List Nat) (flags : Nat) : Except FsErr FsState :=
  if flags != 0 then .error (.fuse EINVAL)
  else match lookup s inode_p_old name_old with
  | .error e => .error e
  | .ok entry_old =>
    match lookup s inode_p_new name_new with
    | .error (.fuse ec) =>
      if ec != ENOENT then .error (.fuse ec)
      else
        .ok { s with contents := (s.contents.map (fun (c : ContentsRow) =>
          if c.name == name_old && c.parent_inode == inode_p_old then
            { c with name := name_new, parent_inode := inode_p_new } else c)) }
    | .error e => .error e
    | .ok entry_new =>
      _replace s inode_p_old name_old inode_p_new name_new entry_old entry_new

/-- Operations.link: EINVAL when the new parent is unlinked; insert a contents
row and return the inode's attributes. -/
def link (s : FsState) (inode new_inode_p : Nat) (new_name : List Nat) :
    Except FsErr (EntryAttributes × FsState) :=
  match getattr s new_inode_p with
  | .error e => .error e
  | .ok entry_p =>
    if entry_p.st_nlink == 0 then .error (.fuse EINVAL)
    else match insertContents s new_name inode new_inode_p with
    | .error e => .error e
    | .ok s1 => (getattr s1 inode).map (fun e => (e, s1))

/-- Operations._create: EINVAL under an unlinked parent; insert the inode row
(id = lastrowid), insert the contents row, return getattr of the new inode. -/
def _create (s : FsState) (inode_p : Nat) (name : List Nat) (mode : Nat)
    (ctx_uid ctx_gid now_ns rdev : Nat) (target : Option (List Nat)) :
    Except FsErr (EntryAttributes × FsState) :=
  match getattr s inode_p with
  | .error e => .error e
  | .ok entry_p =>
    if entry_p.st_nlink == 0 then .error (.fuse EINVAL)
    else
      let inode := nextInodeId s
      let s1 := { s with inodes := s.inodes ++
        [⟨inode, ctx_uid, ctx_gid, mode, now_ns, now_ns, now_ns, target, 0, rdev⟩] }
      match insertContents s1 name inode inode_p with
      | .error e => .error e
      | .ok s2 => (getattr s2 inode).map (fun e => (e, s2))

/-- Operations.mknod. -/
def mknod (s : FsState) (inode_p : Nat) (name : List Nat) (mode : Nat)
    (rdev ctx_uid ctx_gid now_ns : Nat) : Except FsErr (EntryAttributes × FsState) :=
  _create s inode_p name mode ctx_uid ctx_gid now_ns rdev none

/-- Operations.mkdir. -/
def mkdir (s : FsState) (inode_p : Nat) (name : List Nat) (mode : Nat)
    (ctx_uid ctx_gid now_ns : Nat) : Except FsErr (EntryAttributes × FsState) :=
  _create s inode_p name mode ctx_uid ctx_gid now_ns 0 none

/-- Operations.symlink: mode = S_IFLNK with rwx for everyone (0o120777). -/
def symlink (s : FsState) (inode_p : Nat) (name target : List Nat)
    (ctx_uid ctx_gid now_ns : Nat) : Except FsErr (EntryAttributes × FsState) :=
  _create s inode_p name 41471 ctx_uid ctx_gid now_ns 0 (some target)

/-- Operations.open (named openUpcall because `open` is a Lean keyword):
bump the open count and use the inode as the file handle. -/
def openUpcall (s : FsState) (inode : Nat) : Nat × FsState :=
  (inode, { s with inode_open_count := bumpCount s.inode_open_count inode 1 })

/-- Operations.create: _create, then count the new inode as open. -/
def create (s : FsState) (inode_parent : Nat) (name : List Nat) (mode : Nat)
    (ctx_uid ctx_gid now_ns : Nat) : Except FsErr (Nat × EntryAttributes × FsState) :=
  match _create s inode_parent name mode ctx_uid ctx_gid now_ns 0 none with
  | .error e => .error e
  | .ok (entry, s1) =>
    .ok (entry.st_ino, entry,
      { s1 with inode_open_count := (bumpCount s1.inode_open_count entry.st_ino 1) })

/-- Operations.get_telegram_data: cache lookup; on a miss, the telegram_messages
rows for the inode; any exception (no rows, missing message, InvalidToken) is
caught and an empty byte string returned. -/
def get_telegram_data (es : EncScheme) (s : FsState) (fh : Nat) : List Nat × FsState :=
  match TelegramFileClient.get_cached_file s.cached_files fh with
  | some v => (v, s)
  | none =>
    match getRowsList (s.telegram_messages.filter (fun m => m.inode == fh)) with
    | .error _ => ([], s)
    | .ok rows =>
      match TelegramFileClient.download_file es s fh (rows.map (fun m => m.id)) with
      | .error _ => ([], s)
      | .ok (buf, s1) => (buf, s1)

/-- Operations.setattr: for update_size, materialize the current content via
get_telegram_data and pad/truncate it to st_size — but that buffer is discarded
(source-preserved quirk): only the size column is updated.  Each other flagged
field updates its column; when update_ctime is not set, ctime is stamped to the
current time (the source's else is attached to the last if only).  Returns
getattr of the inode. -/
def setattr (es : EncScheme) (s : FsState) (inode : Nat) (attr : Attr)
    (fields : SetattrFields) (fh now_ns : Nat) :
    Except FsErr (EntryAttributes × FsState) :=
  let s1 :=
    if fields.update_size then
      let p := get_telegram_data es s fh
      let data := p.1
      let _materialized :=
        if data.length < attr.st_size then
          data ++ List.replicate (attr.st_size - data.length) 0
        else data.take attr.st_size
      updateInode p.2 inode (fun r => { r with size := attr.st_size })
    else s
  let s2 := if fields.update_mode then
    updateInode s1 inode (fun r => { r with mode := attr.st_mode }) else s1
  let s3 := if fields.update_uid then
    updateInode s2 inode (fun r => { r with uid := attr.st_uid }) else s2
  let s4 := if fields.update_gid then
    updateInode s3 inode (fun r => { r with gid := attr.st_gid }) else s3
  let s5 := if fields.update_atime then
    updateInode s4 inode (fun r => { r with atime_ns := attr.st_atime_ns }) else s4
  let s6 := if fields.update_mtime then
    updateInode s5 inode (fun r => { r with mtime_ns := attr.st_mtime_ns }) else s5
  let s7 :=
    if fields.update_ctime then
      updateInode s6 inode (fun r => { r with ctime_ns := attr.st_ctime_ns })
    else
      updateInode s6 inode (fun r => { r with ctime_ns := now_ns })
  (getattr s7 inode).map (fun e => (e, s7))

/-- Operations.read: get_row on the inodes table raises NoSuchRowError when the
inode is absent, so the source's subsequent `if row is None: return b''` test
never fires; otherwise slice the full content. -/
def read (es : EncScheme) (s : FsState) (fh offset length : Nat) :
    Except FsErr (List Nat × FsState) :=
  match getRowList (s.inodes.filter (fun r => r.id == fh)) with
  | .error e => .error e
  | .ok _row =>
    let p := get_telegram_data es s fh
    .ok (pySlice p.1 offset length, p.2)

/-- Operations.write: when the buffer is empty, get_row on the inodes table
(raising NoSuchRowError when the inode is absent — the source's `if row != None`
test never fires) and seed the buffer from get_telegram_data; append when the
offset is the buffer length, else splice buf over [offset, offset+len(buf)). -/
def write (es : EncScheme) (s : FsState) (fh offset : Nat) (buf : List Nat) :
    Except FsErr (Nat × FsState) :=
  let seeded : Except FsErr (List Nat × FsState) :=
    if s.write_buffer == [] then
      match getRowList (s.inodes.filter (fun r => r.id == fh)) with
      | .error e => .error e
      | .ok _row =>
        let p := get_telegram_data es s fh
        .ok (p.1, { p.2 with write_buffer := p.1 })
    else .ok (s.write_buffer, s)
  match seeded with
  | .error e => .error e
  | .ok (result_bytes, s1) =>
    if offset == result_bytes.length then
      .ok (buf.length, { s1 with write_buffer := result_bytes ++ buf })
    else
      .ok (buf.length, { s1 with write_buffer :=
        (result_bytes.take offset ++ buf ++ result_bytes.drop (offset + buf.length)) })

/-- The observable steps of Operations.release's flush, in source order. -/
inductive RelEvent where
  | snapshotClear (data : List Nat)
  | uploadCall (ids : List Nat)
  | deleteRemote (ids : List Nat)
  | deleteDbMsgRows
  | insertMsgRow (id : Nat)
  | updateSize (n : Nat)
  | commitTx
  deriving DecidableEq, Repr

/-- Operations.release: decrement the open count; when the write buffer is
non-empty, snapshot and clear it, resolve the filename (get_row), upload the
data, delete the old remote messages, delete the old telegram_messages rows,
insert the new message ids in produced order, set inodes.size, commit.  Then,
when the open count reached 0, drop the map entry and delete the inode row if
its nlink is 0.  The returned trace records the flush steps in executed order. -/
def release (es : EncScheme) (s : FsState) (fh : Nat) :
    Except FsErr (FsState × List RelEvent) :=
  let sa := { s with inode_open_count := bumpCount s.inode_open_count fh (-1) }
  let flushed : Except FsErr (FsState × List RelEvent) :=
    if 0 < sa.write_buffer.length then
      let data := sa.write_buffer
      let s1 := { sa with write_buffer := [] }
      match getRowList (s1.contents.filter (fun c => c.inode == fh)) with
      | .error e => .error e
      | .ok _fname =>
        let up := TelegramFileClient.upload_file es s1 data fh
        let ids := up.1
        let oldIds := (s1.telegram_messages.filter (fun m => m.inode == fh)).map
          (fun m => m.id)
        let s3 := delete_msgs_for_inode up.2 fh
        let s4 := { s3 with telegram_messages := (s3.telegram_messages.filter
                      (fun m => m.inode != fh)) }
        let s5 := { s4 with telegram_messages := (s4.telegram_messages ++
                      ids.map (fun i => ⟨i, fh⟩)) }
        let s6 := updateInode s5 fh (fun r => { r with size := data.length })
        .ok (s6, [.snapshotClear data, .uploadCall ids, .deleteRemote oldIds,
                  .deleteDbMsgRows] ++ ids.map RelEvent.insertMsgRow ++
                 [.updateSize data.length, .commitTx])
    else .ok (sa, [])
  match flushed with
  | .error e => .error e
  | .ok (s', tr) =>
    if countOf s'.inode_open_count fh == 0 then
      let s'' := { s' with inode_open_count := removeAssoc s'.inode_open_count fh }
      match getattr s'' fh with
      | .error e => .error e
      | .ok entry =>
        if entry.st_nlink == 0 then
          .ok ({ s'' with inodes := s''.inodes.filter (fun r => r.id != fh) }, tr)
        else .ok (s'', tr)
    else .ok (s', tr)

end Operations

/-! Concrete fixtures used by the witnesses and counterexamples. -/

/-- No ENCRYPTION_KEY configured (the client stores plaintext). -/
def esId : EncScheme := ⟨false, fun b => b, fun b => some b⟩

/-- An ENCRYPTION_KEY is configured but every authentication check fails:
the situation after the remote payload was altered post-upload. -/
def esBad : EncScheme := ⟨true, fun b => b, fun _ => none⟩

/-- An ENCRYPTION_KEY is configured and decryption inverts encryption (the
Fernet contract on unaltered ciphertext); enc is taken as the identity. -/
def esEnc : EncScheme := ⟨true, fun b => b, fun b => some b⟩

/-- Extract the payload of a successful result, with a fallback. -/
def exOk {α : Type} (x : Except FsErr α) (d : α) : α :=
  match x with
  | .ok v => v
  | .error _ => d

/-- A one-file filesystem whose file (inode 2, name b'f', one flushed message
with remote id 10) is currently open once. -/
def sOpenFile : FsState :=
  { inodes := [⟨1, 0, 0, rootMode, 0, 0, 0, none, 0, 0⟩,
               ⟨2, 0, 0, 33188, 0, 0, 0, none, 1, 0⟩],
    contents := [⟨1, dotdot, 1, 1⟩, ⟨2, [102], 2, 1⟩],
    telegram_messages := [⟨10, 2⟩],
    nextRowid := 3,
    inode_open_count := [(2, 1)],
    write_buffer := [],
    remote := [⟨10, [9]⟩],
    nextMsgId := 11,
    cached_files := [] }

/-- C6.  The claim says a read of a file handle with no inodes row returns the
empty byte string with no exception escaping.  In the source, get_row raises
NoSuchRowError on zero rows, so `row = self.get_row(...)` in read raises before
the intended `if row is None: return b''` (dead code) can run: the code is the
slip, the claim matches the code's own dead guard.  Evaluated at the failing
input fh = 99 on a fresh filesystem. -/
theorem c6_read_missing_inode_raises :
    Operations.read esId (init_tables 0 0 0) 99 0 4 = .error .noSuchRow := by
  decide

/-- C3.  The claim (and the spec) say unlink of an open file deletes the
contents row, deferring only the inode-row deletion to the final release.  In
the source both deletion branches of _remove require the inode to be ABSENT
from the open-count map, so for an open file _remove deletes nothing at all —
and consequently the final release sees st_nlink = 1 and never deletes the
inode row either.  Evaluated at the failing input: unlink(parent=1, name=b'f')
with inode 2 open (count 1, nlink 1, no children): the upcall succeeds but the
state is completely unchanged, and the subsequent final release only drops the
open-count entry, keeping both the contents row and the inode row. -/
theorem c3_unlink_open_file_deletes_nothing :
    Operations.unlink sOpenFile 1 [102] = .ok sOpenFile ∧
    Operations.release esId sOpenFile 2 =
      .ok ({ sOpenFile with inode_open_count := [] }, []) := by
  decide

/-- Chunk count of an over-large payload, as computed by the source. -/
theorem uploadChunks_length_of_gt (c : List Nat) (h : FILE_MAX_SIZE_BYTES < c.length) :
    (TelegramFileClient.uploadChunks c).length
      = (c.length + FILE_MAX_SIZE_BYTES) / FILE_MAX_SIZE_BYTES := by
  unfold TelegramFileClient.uploadChunks
  rw [if_pos h]
  simp

/-- C2 counterexample.  The claim says a payload whose length is an exact
positive multiple k * FILE_MAX_SIZE with k >= 2 is uploaded as exactly k
chunks.  At len = 2 * FILE_MAX_SIZE = 4000000000 the source's
`(len + FILE_MAX_SIZE) // FILE_MAX_SIZE` yields 3 chunks (the last one empty),
while ceil(len / FILE_MAX_SIZE) = 2. -/
theorem c2_chunking_counterexample :
    (TelegramFileClient.uploadChunks (List.replicate 4000000000 0)).length = 3 ∧
    (4000000000 + FILE_MAX_SIZE_BYTES - 1) / FILE_MAX_SIZE_BYTES = 2 := by
  constructor
  · rw [uploadChunks_length_of_gt _ (by rw [List.length_replicate]; decide)]
    rw [List.length_replicate]
    decide
  · decide

/-- Element i of a mapped range, with a default. -/
theorem range_map_getD {β : Type} (n i : Nat) (f : Nat → β) (d : β) (h : i < n) :
    ((List.range n).map f).getD i d = f i := by
  simp [List.getD_eq_getElem?_getD, List.getElem?_map, List.getElem?_range h]

/-- C2 (amended): the ciphertext is what is chunked; a payload of length
len <= FILE_MAX_SIZE is uploaded as the single chunk [payload]; for
len > FILE_MAX_SIZE the number of chunks is (len + FILE_MAX_SIZE) / FILE_MAX_SIZE,
which equals ceil(len / FILE_MAX_SIZE) exactly when FILE_MAX_SIZE does not
divide len, and is ceil + 1 — with an empty trailing chunk — when it does;
chunk i is payload[i*FILE_MAX_SIZE : (i+1)*FILE_MAX_SIZE]. -/
theorem c2_chunking_amended (payload : List Nat) :
    (payload.length ≤ FILE_MAX_SIZE_BYTES →
      TelegramFileClient.uploadChunks payload = [payload]) ∧
    (FILE_MAX_SIZE_BYTES < payload.length →
      (TelegramFileClient.uploadChunks payload).length
          = (payload.length + FILE_MAX_SIZE_BYTES) / FILE_MAX_SIZE_BYTES
        ∧ (¬ FILE_MAX_SIZE_BYTES ∣ payload.length →
            (TelegramFileClient.uploadChunks payload).length
              = (payload.length + FILE_MAX_SIZE_BYTES - 1) / FILE_MAX_SIZE_BYTES)
        ∧ (FILE_MAX_SIZE_BYTES ∣ payload.length →
            (TelegramFileClient.uploadChunks payload).length
              = payload.length / FILE_MAX_SIZE_BYTES + 1
            ∧ (TelegramFileClient.uploadChunks payload).getD
                (payload.length / FILE_MAX_SIZE_BYTES) [] = [])
        ∧ (∀ i, i < (TelegramFileClient.uploadChunks payload).length →
            (TelegramFileClient.uploadChunks payload).getD i []
              = (payload.drop (i * FILE_MAX_SIZE_BYTES)).take FILE_MAX_SIZE_BYTES)) := by
  have hM : 0 < FILE_MAX_SIZE_BYTES := by decide
  constructor
  · intro h
    unfold TelegramFileClient.uploadChunks
    rw [if_neg (Nat.not_lt.mpr h)]
  · intro h
    refine ⟨uploadChunks_length_of_gt payload h, ?_, ?_, ?_⟩
    · intro hnd
      rw [uploadChunks_length_of_gt payload h]
      have h1 : 0 < payload.length := lt_trans hM h
      have hstep : payload.length / FILE_MAX_SIZE_BYTES
          = (payload.length - 1) / FILE_MAX_SIZE_BYTES := by
        have hs : payload.length - 1 + 1 = payload.length := Nat.succ_pred_eq_of_pos h1
        have := Nat.succ_div (payload.length - 1) FILE_MAX_SIZE_BYTES
        rw [hs] at this
        rw [this, if_neg hnd]
        exact Nat.add_zero _
      rw [Nat.add_div_right _ hM]
      have hr : payload.length + FILE_MAX_SIZE_BYTES - 1
          = payload.length - 1 + FILE_MAX_SIZE_BYTES := by omega
      rw [hr, Nat.add_div_right _ hM, hstep]
    · intro hd
      constructor
      · rw [uploadChunks_length_of_gt payload h, Nat.add_div_right _ hM]
      · unfold TelegramFileClient.uploadChunks
        rw [if_pos h]
        rw [range_map_getD]
        · rw [Nat.div_mul_cancel hd]
          have : payload.drop payload.length = [] := List.drop_length payload
          rw [this, List.take_nil]
        · rw [Nat.add_div_right _ hM]
          exact Nat.lt_succ_self _
    · intro i hi
      rw [uploadChunks_length_of_gt payload h] at hi
      unfold TelegramFileClient.uploadChunks
      rw [if_pos h]
      rw [range_map_getD]
      exact hi

/-- C2 witness: a payload one byte over the limit is split into 2 chunks. -/
theorem c2_chunking_amended_witness :
    (TelegramFileClient.uploadChunks (List.replicate 2000000001 0)).length = 2 := by
  have h := (c2_chunking_amended (List.replicate 2000000001 0)).2
    (by rw [List.length_replicate]; decide)
  rw [h.1, List.length_replicate]
  decide

/-- C4 counterexample.  The claim says that with an encryption key configured,
a read of a file whose remote payload was altered (so decryption
authentication fails) fails with EIO.  In the source the InvalidToken
exception propagates from download_file into get_telegram_data, whose blanket
`except Exception` swallows it and returns b'': the read succeeds with empty
bytes, and no EIO is raised.  esBad models the altered payload (every
authentication check fails). -/
theorem c4_integrity_counterexample :
    Operations.read esBad sOpenFile 2 0 6 = .ok ([], sOpenFile) := by
  decide

/-- C4 (amended): with an encryption key configured, if decryption of the
downloaded payload fails (or any other exception escapes download_file), the
read returns the empty byte string with the state unchanged — the exception is
swallowed by get_telegram_data — instead of failing with EIO. -/
theorem c4_decrypt_failure_reads_empty (es : EncScheme) (s : FsState)
    (fh offset length : Nat) (row : InodeRow) (rows : List MsgRow) (e : FsErr)
    (hrow : getRowList (s.inodes.filter (fun r => r.id == fh)) = .ok row)
    (hrows : getRowsList (s.telegram_messages.filter (fun m => m.inode == fh)) = .ok rows)
    (hdl : TelegramFileClient.download_file es s fh (rows.map (fun m => m.id)) = .error e) :
    Operations.read es s fh offset length = .ok ([], s) := by
  have hmiss : TelegramFileClient.get_cached_file s.cached_files fh = none := by
    cases hc : TelegramFileClient.get_cached_file s.cached_files fh with
    | none => rfl
    | some v =>
      rw [TelegramFileClient.download_file, hc] at hdl
      exact absurd hdl (by simp)
  unfold Operations.read Operations.get_telegram_data
  simp only [hrow, hmiss, hrows, hdl]
  simp [pySlice]

/-- C4 witness: the amended behavior at the concrete corrupted-payload state. -/
theorem c4_decrypt_failure_reads_empty_witness :
    Operations.read esBad sOpenFile 2 1 6 = .ok ([], sOpenFile) :=
  c4_decrypt_failure_reads_empty esBad sOpenFile 2 1 6
    ⟨2, 0, 0, 33188, 0, 0, 0, none, 1, 0⟩ [⟨10, 2⟩] .invalidToken rfl rfl rfl

/-- A successful get_row means the filtered row set was exactly a singleton. -/
theorem getRowList_ok {α : Type} (l : List α) (a : α) (h : getRowList l = .ok a) :
    l = [a] := by
  match l with
  | [] => simp [getRowList] at h
  | [x] =>
    simp only [getRowList] at h
    cases h
    rfl
  | x :: y :: t => simp [getRowList] at h

/-- Successful Except.map comes from a successful base value. -/
theorem except_map_ok {α β : Type} (x : Except FsErr α) (f : α → β) (b : β)
    (h : x.map f = .ok b) : ∃ a, x = .ok a ∧ b = f a := by
  cases x with
  | error e => simp [Except.map] at h
  | ok a =>
    refine ⟨a, rfl, ?_⟩
    simp only [Except.map] at h
    cases h
    rfl

/-- Filtering by id commutes with an id-preserving per-row SQL UPDATE. -/
theorem updateInode_inodes_filter (l : List InodeRow) (i j : Nat)
    (f : InodeRow → InodeRow) (hf : ∀ r, (f r).id = r.id) :
    (l.map (fun r => if r.id == i then f r else r)).filter (fun r => r.id == j)
      = (l.filter (fun r => r.id == j)).map (fun r => if r.id == i then f r else r) := by
  rw [List.filter_map]
  have hcomp : ((fun r => r.id == j) ∘ (fun r => if r.id == i then f r else r))
      = (fun r => r.id == j) := by
    funext r
    simp only [Function.comp_apply]
    by_cases h : r.id = i
    · rw [if_pos (by simp [h]), hf]
    · rw [if_neg (by simp [h])]
  rw [hcomp]

/-- The setattr field set for a bare truncate (only update_size). -/
def szFields : SetattrFields := ⟨true, false, false, false, false, false, false⟩

/-- A one-file filesystem: inode 2 (name b'f') has two bytes [7, 7] flushed to
the remote channel as message 10, nothing cached, nothing open. -/
def sTrunc : FsState :=
  { inodes := [⟨1, 0, 0, rootMode, 0, 0, 0, none, 0, 0⟩,
               ⟨2, 0, 0, 33188, 0, 0, 0, none, 2, 0⟩],
    contents := [⟨1, dotdot, 1, 1⟩, ⟨2, [102], 2, 1⟩],
    telegram_messages := [⟨10, 2⟩],
    nextRowid := 3,
    inode_open_count := [],
    write_buffer := [],
    remote := [⟨10, [7, 7]⟩],
    nextMsgId := 11,
    cached_files := [] }

/-- Truncate the two-byte file to size 1 twice, then read the whole file;
return the bytes the read produced and the size column recorded for inode 2. -/
def c5run : Except FsErr (List Nat × Nat) := do
  let r1 ← Operations.setattr esId sTrunc 2 ⟨1, 0, 0, 0, 0, 0, 0⟩ szFields 2 0
  let r2 ← Operations.setattr esId r1.2 2 ⟨1, 0, 0, 0, 0, 0, 0⟩ szFields 2 0
  let r3 ← Operations.read esId r2.2 2 0 2
  pure (r3.1, ((r2.2.inodes.filter (fun r => r.id == 2)).map (fun r => r.size)).sum)

/-- C5 counterexample.  The claim says that after truncating to S twice, the
size column is S AND a read of the whole file returns at most S bytes.  On the
two-byte file truncated to S = 1 twice, the size column is indeed 1, but the
read returns both original bytes [7, 7] (setattr materializes the truncated
buffer and discards it; the read re-fetches the untruncated remote content):
2 bytes > S = 1. -/
theorem c5_truncate_counterexample : c5run = .ok ([7, 7], 1) := by
  decide

/-- C5 (amended): applying setattr with update_size to S twice leaves the
inode's size column equal to S, but the subsequent read returns the slice of
the ORIGINAL (untruncated) content D — so its length is min(|D|, length
requested), which exceeds S whenever |D| does.  Stated for a file whose
content D is already materialized in the content cache. -/
theorem c5_truncate_amended (es : EncScheme) (s : FsState) (fh S L now1 now2 : Nat)
    (D : List Nat) (row : InodeRow) (e1 : EntryAttributes) (s1 : FsState)
    (e2 : EntryAttributes) (s2 : FsState)
    (hca : lookupAssoc s.cached_files fh = some D)
    (hD : D ≠ [])
    (hrow : getRowList (s.inodes.filter (fun r => r.id == fh)) = .ok row)
    (h1 : Operations.setattr es s fh ⟨S, 0, 0, 0, 0, 0, 0⟩ szFields fh now1 = .ok (e1, s1))
    (h2 : Operations.setattr es s1 fh ⟨S, 0, 0, 0, 0, 0, 0⟩ szFields fh now2 = .ok (e2, s2)) :
    ((s2.inodes.filter (fun r => r.id == fh)).map (fun r => r.size)) = [S] ∧
    Operations.read es s2 fh 0 L = .ok (pySlice D 0 L, s2) := by
  have hcf : TelegramFileClient.get_cached_file s.cached_files fh = some D := by
    unfold TelegramFileClient.get_cached_file
    rw [hca]
    simp [hD]
  have hgtd : Operations.get_telegram_data es s fh = (D, s) := by
    unfold Operations.get_telegram_data
    rw [hcf]
  unfold Operations.setattr at h1
  simp only [szFields, hgtd, if_true, if_false, Bool.false_eq_true] at h1
  obtain ⟨a1, hg1, hb1⟩ := except_map_ok _ _ _ h1
  have hs1 : s1 = updateInode (updateInode s fh (fun r => { r with size := S }))
      fh (fun r => { r with ctime_ns := now1 }) := congrArg Prod.snd hb1
  have hid : row.id == fh := by
    have heq := getRowList_ok _ _ hrow
    have hmem : row ∈ s.inodes.filter (fun r => r.id == fh) := by
      rw [heq]; exact List.mem_singleton_self _
    exact (List.mem_filter.mp hmem).2
  have hideq : row.id = fh := by simpa using hid
  have hfilter1 : s1.inodes.filter (fun r => r.id == fh)
      = [{ { row with size := S } with ctime_ns := now1 }] := by
    rw [hs1]
    simp only [updateInode]
    rw [updateInode_inodes_filter _ fh fh (fun r => { r with ctime_ns := now1 }) (fun r => rfl),
        updateInode_inodes_filter _ fh fh (fun r => { r with size := S }) (fun r => rfl),
        getRowList_ok _ _ hrow]
    simp [hideq]
  have hcache1 : s1.cached_files = s.cached_files := by
    rw [hs1]; rfl
  have hcf1 : TelegramFileClient.get_cached_file s1.cached_files fh = some D := by
    rw [hcache1]; exact hcf
  have hgtd1 : Operations.get_telegram_data es s1 fh = (D, s1) := by
    unfold Operations.get_telegram_data
    rw [hcf1]
  unfold Operations.setattr at h2
  simp only [szFields, hgtd1, if_true, if_false, Bool.false_eq_true] at h2
  obtain ⟨a2, hg2, hb2⟩ := except_map_ok _ _ _ h2
  have hs2 : s2 = updateInode (updateInode s1 fh (fun r => { r with size := S }))
      fh (fun r => { r with ctime_ns := now2 }) := congrArg Prod.snd hb2
  have hfilter2 : s2.inodes.filter (fun r => r.id == fh)
      = [{ { { { row with size := S } with ctime_ns := now1 } with size := S }
           with ctime_ns := now2 }] := by
    rw [hs2]
    simp only [updateInode]
    rw [updateInode_inodes_filter _ fh fh (fun r => { r with ctime_ns := now2 }) (fun r => rfl),
        updateInode_inodes_filter _ fh fh (fun r => { r with size := S }) (fun r => rfl),
        hfilter1]
    simp [hideq]
  have hcache2 : s2.cached_files = s.cached_files := by
    rw [hs2]
    have : (updateInode s1 fh (fun r => { r with size := S })).cached_files
        = s1.cached_files := rfl
    rw [show (updateInode (updateInode s1 fh (fun r => { r with size := S })) fh
          (fun r => { r with ctime_ns := now2 })).cached_files = s1.cached_files from rfl]
    exact hcache1
  constructor
  · rw [hfilter2]
    rfl
  · unfold Operations.read Operations.get_telegram_data
    rw [show getRowList (s2.inodes.filter (fun r => r.id == fh))
          = .ok { { { { row with size := S } with ctime_ns := now1 } with size := S }
                  with ctime_ns := now2 } from by rw [hfilter2]; rfl]
    rw [show TelegramFileClient.get_cached_file s2.cached_files fh = some D from by
          rw [hcache2]; exact hcf]

/-- The truncate fixture with its content [7, 7] already in the cache. -/
def sTruncCached : FsState := { sTrunc with cached_files := [(2, [7, 7])] }

/-- First truncate-to-1 applied to the cached fixture. -/
def sTruncC1 : FsState :=
  (exOk (Operations.setattr esId sTruncCached 2 ⟨1, 0, 0, 0, 0, 0, 0⟩ szFields 2 0)
    (default, sTruncCached)).2

/-- Second truncate-to-1 applied on top. -/
def sTruncC2 : FsState :=
  (exOk (Operations.setattr esId sTruncC1 2 ⟨1, 0, 0, 0, 0, 0, 0⟩ szFields 2 0)
    (default, sTruncC1)).2

/-- C5 witness: the amended statement at the concrete cached fixture. -/
theorem c5_truncate_amended_witness :
    ((sTruncC2.inodes.filter (fun r => r.id == 2)).map (fun r => r.size)) = [1] ∧
    Operations.read esId sTruncC2 2 0 2 = .ok (pySlice [7, 7] 0 2, sTruncC2) :=
  c5_truncate_amended esId sTruncCached 2 1 2 0 0 [7, 7]
    ⟨2, 0, 0, 33188, 0, 0, 0, none, 2, 0⟩
    (exOk (Operations.setattr esId sTruncCached 2 ⟨1, 0, 0, 0, 0, 0, 0⟩ szFields 2 0)
      (default, sTruncCached)).1 sTruncC1
    (exOk (Operations.setattr esId sTruncC1 2 ⟨1, 0, 0, 0, 0, 0, 0⟩ szFields 2 0)
      (default, sTruncC1)).1 sTruncC2
    rfl (by decide) (by decide) (by decide) (by decide)

/-- C9.  The claim says every write call returns len(buf).  When the buffer is
empty and no inodes row exists for fh, get_row raises NoSuchRowError (the
source's `if row != None` guard is dead code), so write raises instead of
returning — the first conjunct evaluates the code at that failing input.  The
other two conjuncts verify the rest of the claim, which holds: with a
non-empty buffer no seeding happens; with an empty buffer and an existing
inodes row the buffer is seeded from get_telegram_data; then buf is appended
when offset equals the buffer length and otherwise spliced over
[offset, offset+len(buf)), and len(buf) is returned. -/
theorem c9_write_contract :
    (Operations.write esId (init_tables 0 0 0) 5 0 [1] = .error .noSuchRow) ∧
    (∀ (es : EncScheme) (s : FsState) (fh offset : Nat) (buf : List Nat)
        (n : Nat) (s' : FsState),
      s.write_buffer ≠ [] →
      Operations.write es s fh offset buf = .ok (n, s') →
      n = buf.length ∧
      s'.write_buffer =
        (if offset = s.write_buffer.length then s.write_buffer ++ buf
         else s.write_buffer.take offset ++ buf
              ++ s.write_buffer.drop (offset + buf.length))) ∧
    (∀ (es : EncScheme) (s : FsState) (fh offset : Nat) (buf : List Nat)
        (row : InodeRow) (n : Nat) (s' : FsState),
      s.write_buffer = [] →
      getRowList (s.inodes.filter (fun r => r.id == fh)) = .ok row →
      Operations.write es s fh offset buf = .ok (n, s') →
      n = buf.length ∧
      s'.write_buffer =
        (let seeded := (Operations.get_telegram_data es s fh).1
         if offset = seeded.length then seeded ++ buf
         else seeded.take offset ++ buf ++ seeded.drop (offset + buf.length))) := by
  refine ⟨by decide, ?_, ?_⟩
  · intro es s fh offset buf n s' hne hok
    have hb : (s.write_buffer == ([] : List Nat)) = false :=
      beq_eq_false_iff_ne.mpr hne
    unfold Operations.write at hok
    rw [hb] at hok
    simp only [Bool.false_eq_true, if_false] at hok
    by_cases ho : offset = s.write_buffer.length
    · rw [if_pos (by simpa using ho)] at hok
      rw [Except.ok.injEq, Prod.mk.injEq] at hok
      exact ⟨hok.1.symm, by rw [← hok.2, if_pos ho]⟩
    · rw [if_neg (by simpa using ho)] at hok
      rw [Except.ok.injEq, Prod.mk.injEq] at hok
      exact ⟨hok.1.symm, by rw [← hok.2, if_neg ho]⟩
  · intro es s fh offset buf row n s' hbe hrow hok
    have hb : (s.write_buffer == ([] : List Nat)) = true := by
      rw [hbe]; rfl
    unfold Operations.write at hok
    rw [hb] at hok
    simp only [if_true] at hok
    rw [hrow] at hok
    simp only [] at hok
    by_cases ho : offset = (Operations.get_telegram_data es s fh).1.length
    · rw [if_pos (by simpa using ho)] at hok
      rw [Except.ok.injEq, Prod.mk.injEq] at hok
      exact ⟨hok.1.symm, by rw [← hok.2]; simp only []; rw [if_pos ho]⟩
    · rw [if_neg (by simpa using ho)] at hok
      rw [Except.ok.injEq, Prod.mk.injEq] at hok
      exact ⟨hok.1.symm, by rw [← hok.2]; simp only []; rw [if_neg ho]⟩

/-- The truncate fixture with a byte already buffered. -/
def sBufNE : FsState := { sTrunc with write_buffer := [9] }

/-- C9 witness: appending at the end of a non-empty buffer. -/
theorem c9_write_contract_witness :
    (1 : Nat) = [5].length ∧
    ({ sBufNE with write_buffer := [9, 5] } : FsState).write_buffer =
      (if 1 = sBufNE.write_buffer.length then sBufNE.write_buffer ++ [5]
       else sBufNE.write_buffer.take 1 ++ [5]
            ++ sBufNE.write_buffer.drop (1 + [5].length)) :=
  c9_write_contract.2.1 esId sBufNE 2 1 [5] 1 { sBufNE with write_buffer := [9, 5] }
    (by decide) (by decide)

/-- Two files under the root: inode 2 is b'a' (message 21), inode 3 is b'b'
(message 20); nothing open, nothing buffered or cached. -/
def sRen : FsState :=
  { inodes := [⟨1, 0, 0, rootMode, 0, 0, 0, none, 0, 0⟩,
               ⟨2, 0, 0, 33188, 0, 0, 0, none, 1, 0⟩,
               ⟨3, 0, 0, 33188, 0, 0, 0, none, 1, 0⟩],
    contents := [⟨1, dotdot, 1, 1⟩, ⟨2, [97], 2, 1⟩, ⟨3, [98], 3, 1⟩],
    telegram_messages := [⟨20, 3⟩, ⟨21, 2⟩],
    nextRowid := 4,
    inode_open_count := [],
    write_buffer := [],
    remote := [⟨20, [4]⟩, ⟨21, [5]⟩],
    nextMsgId := 22,
    cached_files := [] }

/-- C10.  When rename overwrites an existing destination whose inode has
st_nlink = 1 and is not in the open-count map, _replace deletes the
destination's inodes row and its remote messages, but the telegram_messages
table is left completely unchanged (unlike _remove, which also deletes those
rows), so mapping rows referencing the deleted inode remain. -/
theorem c10_replace_frame (s : FsState) (p1 : Nat) (n1 : List Nat) (p2 : Nat)
    (n2 : List Nat) (eo en : EntryAttributes) (s' : FsState)
    (h1 : Operations.lookup s p1 n1 = .ok eo)
    (h2 : Operations.lookup s p2 n2 = .ok en)
    (hch : (s.contents.filter (fun c => c.parent_inode == en.st_ino)).length = 0)
    (hnl : en.st_nlink = 1)
    (hop : hasKey s.inode_open_count en.st_ino = false)
    (hok : Operations.rename s p1 n1 p2 n2 0 = .ok s') :
    s'.telegram_messages = s.telegram_messages ∧
    s'.inodes = s.inodes.filter (fun r => r.id != en.st_ino) ∧
    s'.remote = TelegramFileClient.delete_messages s.remote
      ((s.telegram_messages.filter (fun m => m.inode == en.st_ino)).map
        (fun m => m.id)) := by
  unfold Operations.rename at hok
  rw [h1, h2] at hok
  simp only [bne_self_eq_false, Bool.false_eq_true, if_false] at hok
  unfold Operations._replace at hok
  rw [hch] at hok
  simp only [lt_self_iff_false, if_false] at hok
  rw [hnl, hop] at hok
  simp only [beq_self_eq_true, Bool.not_false, Bool.and_true, if_true] at hok
  have hs' := Except.ok.inj hok
  subst hs'
  exact ⟨rfl, rfl, rfl⟩

/-- The attributes rename resolves for the two paths. -/
def c10eo : EntryAttributes := exOk (Operations.lookup sRen 1 [97]) default
def c10en : EntryAttributes := exOk (Operations.lookup sRen 1 [98]) default

/-- The state after renaming b'a' over b'b'. -/
def sRen' : FsState := exOk (Operations.rename sRen 1 [97] 1 [98] 0) sRen

/-- C10 witness: renaming b'a' over b'b' deletes inode 3 and remote message 20
but leaves both telegram_messages rows — including the stale (20, 3) row. -/
theorem c10_replace_frame_witness :
    sRen'.telegram_messages = sRen.telegram_messages ∧
    sRen'.inodes = sRen.inodes.filter (fun r => r.id != c10en.st_ino) ∧
    sRen'.remote = TelegramFileClient.delete_messages sRen.remote
      ((sRen.telegram_messages.filter (fun m => m.inode == c10en.st_ino)).map
        (fun m => m.id)) :=
  c10_replace_frame sRen 1 [97] 1 [98] c10eo c10en sRen'
    (by decide) (by decide) (by decide) (by decide) (by decide) (by decide)

/-- The claimed flush order, computed from the pre-release state: snapshot and
clear the buffer, upload (producing the new consecutive message ids), delete
the old remote messages for fh, delete the old telegram_messages rows, insert
the new ids in produced order, set inodes.size to the buffer length, commit. -/
def releaseFlushTrace (es : EncScheme) (s : FsState) (fh : Nat) :
    List Operations.RelEvent :=
  let data := s.write_buffer
  let payload := if es.keySet then es.enc data else data
  let chunks := TelegramFileClient.uploadChunks payload
  let ids := (TelegramFileClient.mkRemoteMsgs s.nextMsgId chunks).map (fun m => m.id)
  let oldIds := (s.telegram_messages.filter (fun m => m.inode == fh)).map
    (fun m => m.id)
  [.snapshotClear data, .uploadCall ids, .deleteRemote oldIds, .deleteDbMsgRows]
    ++ ids.map Operations.RelEvent.insertMsgRow
    ++ [.updateSize data.length, .commitTx]

/-- C7.  Every release invoked with a non-empty write buffer that returns
successfully performed its flush steps in exactly the claimed order; in
particular the old remote messages are deleted after the upload but before the
telegram_messages mapping rows are replaced. -/
theorem c7_release_flush_order (es : EncScheme) (s : FsState) (fh : Nat)
    (s' : FsState) (tr : List Operations.RelEvent)
    (hbuf : s.write_buffer ≠ [])
    (hok : Operations.release es s fh = .ok (s', tr)) :
    tr = releaseFlushTrace es s fh := by
  simp only [Operations.release] at hok
  rw [if_pos (show 0 < s.write_buffer.length from List.length_pos.mpr hbuf)] at hok
  cases hf : getRowList (s.contents.filter (fun c => c.inode == fh)) with
  | error e =>
    simp only [hf] at hok
    exact absurd hok (by simp)
  | ok fname =>
    simp only [hf] at hok
    split at hok
    · split at hok
      · simp at hok
      · split at hok
        · simp only [Except.ok.injEq, Prod.mk.injEq] at hok
          rw [← hok.2]
          rfl
        · simp only [Except.ok.injEq, Prod.mk.injEq] at hok
          rw [← hok.2]
          rfl
    · simp only [Except.ok.injEq, Prod.mk.injEq] at hok
      rw [← hok.2]
      rfl

/-- The one-file fixture with a byte waiting in the write buffer and the file
open once, ready to flush on release. -/
def sW7 : FsState := { sTrunc with write_buffer := [7], inode_open_count := [(2, 1)] }

/-- The result of that release. -/
def relW7 : FsState × List Operations.RelEvent :=
  exOk (Operations.release esId sW7 2) (sW7, [])

/-- C7 witness: the flush trace of the concrete release matches the claim. -/
theorem c7_release_flush_order_witness :
    relW7.2 = releaseFlushTrace esId sW7 2 :=
  c7_release_flush_order esId sW7 2 relW7.1 relW7.2 (by decide) (by decide)

/-- Filtering with a constantly-true predicate keeps every element. -/
theorem filter_true_eq {α : Type} (l : List α) : l.filter (fun _ => true) = l := by
  induction l with
  | nil => rfl
  | cons a t ih => simp [List.filter_cons, ih]

/-- Deleting no message ids leaves the channel unchanged. -/
theorem delete_messages_nil (r : List RemoteMsg) :
    TelegramFileClient.delete_messages r [] = r := by
  unfold TelegramFileClient.delete_messages
  have h : (fun m : RemoteMsg => !(List.contains ([] : List Nat) m.id))
      = (fun _ : RemoteMsg => true) := by
    funext m; rfl
  rw [h]
  exact filter_true_eq r

/-- get_rows succeeds on a non-empty result set. -/
theorem getRowsList_ok {α : Type} (l : List α) (h : l ≠ []) :
    getRowsList l = .ok l := by
  cases l with
  | nil => exact absurd rfl h
  | cons a t => rfl

/-- The payloads of the posted messages are the chunks, in order. -/
theorem mkRemoteMsgs_map_payload (chunks : List (List Nat)) :
    ∀ m, (TelegramFileClient.mkRemoteMsgs m chunks).map (fun x => x.payload)
      = chunks := by
  induction chunks with
  | nil => intro m; rfl
  | cons c cs ih =>
    intro m
    simp only [TelegramFileClient.mkRemoteMsgs, List.map_cons]
    rw [ih (m + 1)]

/-- Posted messages never exist: the channel assigns ids at or above the
running counter. -/
theorem mkRemoteMsgs_id_ge (chunks : List (List Nat)) :
    ∀ m x, x ∈ TelegramFileClient.mkRemoteMsgs m chunks → m ≤ x.id := by
  induction chunks with
  | nil => intro m x hx; exact absurd hx (List.not_mem_nil x)
  | cons c cs ih =>
    intro m x hx
    simp only [TelegramFileClient.mkRemoteMsgs, List.mem_cons] at hx
    cases hx with
    | inl h => rw [h]
    | inr h => exact Nat.le_of_succ_le (ih (m + 1) x h)

/-- Option-monad mapM only depends on the function's values on the list. -/
theorem mapM_option_congr {α β : Type} (l : List α) (f g : α → Option β)
    (h : ∀ a ∈ l, f a = g a) : l.mapM f = l.mapM g := by
  induction l with
  | nil => rfl
  | cons a t ih =>
    rw [List.mapM_cons, List.mapM_cons, h a (List.mem_cons_self a t),
        ih (fun x hx => h x (List.mem_cons_of_mem a hx))]

/-- Fetching the freshly posted message ids from the freshly posted messages
returns exactly those messages, in order. -/
theorem mkRemoteMsgs_fetch (chunks : List (List Nat)) :
    ∀ m, ((TelegramFileClient.mkRemoteMsgs m chunks).map (fun x => x.id)).mapM
        (fun i => (TelegramFileClient.mkRemoteMsgs m chunks).find?
          (fun x => x.id == i))
      = some (TelegramFileClient.mkRemoteMsgs m chunks) := by
  induction chunks with
  | nil => intro m; rfl
  | cons c cs ih =>
    intro m
    simp only [TelegramFileClient.mkRemoteMsgs, List.map_cons, List.mapM_cons]
    have htail : ((TelegramFileClient.mkRemoteMsgs (m + 1) cs).map (fun x => x.id)).mapM
        (fun i => ((⟨m, c⟩ : RemoteMsg) :: TelegramFileClient.mkRemoteMsgs (m + 1) cs).find?
          (fun x => x.id == i))
        = ((TelegramFileClient.mkRemoteMsgs (m + 1) cs).map (fun x => x.id)).mapM
          (fun i => (TelegramFileClient.mkRemoteMsgs (m + 1) cs).find?
            (fun x => x.id == i)) := by
      apply mapM_option_congr
      intro i hi
      obtain ⟨x, hx, rfl⟩ := List.mem_map.mp hi
      have hge := mkRemoteMsgs_id_ge cs (m + 1) x hx
      rw [List.find?_cons_of_neg]
      simp only [beq_iff_eq]
      omega
    rw [List.find?_cons_of_pos _ (by simp), htail, ih (m + 1)]
    rfl

/-- Concatenating the range-indexed M-sized slices of a list that fit within
n * M recovers the list. -/
theorem slice_flatten (M : Nat) : ∀ (n : Nat) (c : List Nat),
    c.length ≤ n * M →
    ((List.range n).map (fun i => (c.drop (i * M)).take M)).flatten = c := by
  intro n
  induction n with
  | zero =>
    intro c hc
    have : c = [] := List.eq_nil_of_length_eq_zero (Nat.le_zero.mp (by simpa using hc))
    rw [this]
    rfl
  | succ n ih =>
    intro c hc
    rw [List.range_succ_eq_map, List.map_cons, List.map_map, List.flatten_cons]
    have h0 : (c.drop (0 * M)).take M = c.take M := by
      rw [Nat.zero_mul, List.drop_zero]
    rw [h0]
    have hcomp : ((fun i => (c.drop (i * M)).take M) ∘ Nat.succ)
        = (fun i => ((c.drop M).drop (i * M)).take M) := by
      funext i
      simp only [Function.comp_apply]
      rw [List.drop_drop]
      have hm : Nat.succ i * M = M + i * M := by
        rw [Nat.succ_mul, Nat.add_comm]
      rw [hm]
    rw [hcomp, ih (c.drop M) (by
      rw [List.length_drop]
      have h2 : (n + 1) * M = n * M + M := by ring
      omega)]
    exact List.take_append_drop M c

/-- Reassembling the chunk split recovers the payload. -/
theorem uploadChunks_flatten (c : List Nat) :
    (TelegramFileClient.uploadChunks c).flatten = c := by
  unfold TelegramFileClient.uploadChunks
  by_cases h : c.length > FILE_MAX_SIZE_BYTES
  · rw [if_pos h]
    apply slice_flatten
    simp only [FILE_MAX_SIZE_BYTES] at h ⊢
    omega
  · rw [if_neg h]
    simp

/-- The chunk split is never the empty list of chunks. -/
theorem uploadChunks_ne_nil (c : List Nat) :
    TelegramFileClient.uploadChunks c ≠ [] := by
  unfold TelegramFileClient.uploadChunks
  by_cases h : c.length > FILE_MAX_SIZE_BYTES
  · rw [if_pos h]
    simp only [ne_eq, List.map_eq_nil_iff, List.range_eq_nil]
    simp only [FILE_MAX_SIZE_BYTES] at h ⊢
    omega
  · rw [if_neg h]
    simp

/-- Posting a non-empty chunk list produces a non-empty message list. -/
theorem mkRemoteMsgs_ne_nil (chunks : List (List Nat)) (m : Nat)
    (h : chunks ≠ []) : TelegramFileClient.mkRemoteMsgs m chunks ≠ [] := by
  cases chunks with
  | nil => exact absurd rfl h
  | cons c cs => simp [TelegramFileClient.mkRemoteMsgs]

/-- The end-to-end scenario of claim C1, composed from the embedded upcalls:
create b'f' on a fresh filesystem, write B at offset 0, release (flush),
reopen, read len(B) bytes from offset 0. -/
def c1run (es : EncScheme) (B : List Nat) : Except FsErr (List Nat) :=
  match Operations.create (init_tables 0 0 0) ROOT_INODE [102] 33188 0 0 0 with
  | .error e => .error e
  | .ok (fh, _entry, s1) =>
    match Operations.write es s1 fh 0 B with
    | .error e => .error e
    | .ok (_n, s2) =>
      match Operations.release es s2 fh with
      | .error e => .error e
      | .ok (s3, _tr) =>
        let o := Operations.openUpcall s3 fh
        match Operations.read es o.2 fh 0 B.length with
        | .error e => .error e
        | .ok (dat, _s4) => .ok dat

/-- The state after creating b'f' (inode 2, open count 1) on a fresh
filesystem. -/
def c1s1 : FsState :=
  { inodes := [⟨1, 0, 0, rootMode, 0, 0, 0, none, 0, 0⟩,
               ⟨2, 0, 0, 33188, 0, 0, 0, none, 0, 0⟩],
    contents := [⟨1, dotdot, 1, 1⟩, ⟨2, [102], 2, 1⟩],
    telegram_messages := [],
    nextRowid := 3,
    inode_open_count := [(2, 1)],
    write_buffer := [],
    remote := [],
    nextMsgId := 0,
    cached_files := [] }

/-- The payload release uploads: the ciphertext when a key is configured. -/
def c1C (es : EncScheme) (B : List Nat) : List Nat :=
  if es.keySet then es.enc B else B

/-- The messages the flush posts for that payload. -/
def c1msgs (es : EncScheme) (B : List Nat) : List RemoteMsg :=
  TelegramFileClient.mkRemoteMsgs 0 (TelegramFileClient.uploadChunks (c1C es B))

/-- The state after the release that flushes B to the channel. -/
def c1s4 (es : EncScheme) (B : List Nat) : FsState :=
  { inodes := [⟨1, 0, 0, rootMode, 0, 0, 0, none, 0, 0⟩,
               ⟨2, 0, 0, 33188, 0, 0, 0, none, B.length, 0⟩],
    contents := [⟨1, dotdot, 1, 1⟩, ⟨2, [102], 2, 1⟩],
    telegram_messages := (((c1msgs es B).map (fun x => x.id)).map
      (fun i => (⟨i, 2⟩ : MsgRow))),
    nextRowid := 3,
    inode_open_count := [],
    write_buffer := [],
    remote := TelegramFileClient.delete_messages (c1msgs es B) [],
    nextMsgId := 0 + (TelegramFileClient.uploadChunks (c1C es B)).length,
    cached_files := [] }

/-- The flush trace of that release. -/
def c1tr (es : EncScheme) (B : List Nat) : List Operations.RelEvent :=
  ([Operations.RelEvent.snapshotClear B,
    Operations.RelEvent.uploadCall ((c1msgs es B).map (fun x => x.id)),
    Operations.RelEvent.deleteRemote [], Operations.RelEvent.deleteDbMsgRows]
    ++ ((c1msgs es B).map (fun x => x.id)).map Operations.RelEvent.insertMsgRow
    ++ [Operations.RelEvent.updateSize B.length, Operations.RelEvent.commitTx])

/-- Creating b'f' on a fresh filesystem: handle 2, the expected attributes,
and c1s1. -/
theorem c1_create_eq :
    Operations.create (init_tables 0 0 0) ROOT_INODE [102] 33188 0 0 0
      = .ok (2, ⟨2, 0, 300, 300, 33188, 1, 0, 0, 0, 0, 512, 1, 0, 0, 0⟩, c1s1) := by
  decide

/-- Writing B at offset 0 into the freshly created file: the buffer is seeded
from the (empty) remote content and B is appended. -/
theorem c1_write_eq (es : EncScheme) (B : List Nat) :
    Operations.write es c1s1 2 0 B
      = .ok (B.length, { c1s1 with write_buffer := B }) := rfl

/-- Releasing the freshly written file: the buffer is flushed to the channel
as the chunks of the (possibly encrypted) payload, the mapping rows and size
are recorded, and the open count entry is dropped. -/
theorem c1_release_eq (es : EncScheme) (B : List Nat) (hB : B ≠ []) :
    Operations.release es { c1s1 with write_buffer := B } 2
      = .ok (c1s4 es B, c1tr es B) := by
  have hlen : 0 < B.length := List.length_pos.mpr hB
  dsimp only [Operations.release]
  rw [if_pos hlen]
  rfl

/-- Reading a file whose content was flushed as the chunks of a payload whose
decryption is B: the chunks are fetched in insertion order, concatenated and
decrypted, giving B, which is stored in the cache. -/
theorem get_telegram_data_flushed (es : EncScheme) (s : FsState) (fh m : Nat)
    (chunks : List (List Nat)) (B : List Nat)
    (hch : chunks ≠ [])
    (hcache : TelegramFileClient.get_cached_file s.cached_files fh = none)
    (htm : s.telegram_messages
      = ((TelegramFileClient.mkRemoteMsgs m chunks).map (fun x => x.id)).map
          (fun i => (⟨i, fh⟩ : MsgRow)))
    (hrem : s.remote = TelegramFileClient.mkRemoteMsgs m chunks)
    (hdec : (if es.keySet = true then es.dec chunks.flatten
             else some chunks.flatten) = some B) :
    Operations.get_telegram_data es s fh
      = (B, { s with cached_files := setAssoc s.cached_files fh B }) := by
  have hmsgs : TelegramFileClient.mkRemoteMsgs m chunks ≠ [] :=
    mkRemoteMsgs_ne_nil _ _ hch
  have hfil : s.telegram_messages.filter (fun x => x.inode == fh)
      = s.telegram_messages := by
    rw [htm, List.filter_map]
    have hcomp : ((fun x : MsgRow => x.inode == fh) ∘ (fun i => (⟨i, fh⟩ : MsgRow)))
        = fun _ => true := by
      funext i
      simp [Function.comp_apply]
    rw [hcomp, filter_true_eq]
  have hne : s.telegram_messages ≠ [] := by
    rw [htm]
    simp only [ne_eq, List.map_eq_nil_iff]
    exact hmsgs
  have hids : (((TelegramFileClient.mkRemoteMsgs m chunks).map (fun x => x.id)).map
      (fun i => (⟨i, fh⟩ : MsgRow))).map (fun x => x.id)
      = (TelegramFileClient.mkRemoteMsgs m chunks).map (fun x => x.id) := by
    rw [List.map_map]
    have hcomp : ((fun x : MsgRow => x.id) ∘ (fun i => (⟨i, fh⟩ : MsgRow)))
        = fun i => i := by
      funext i
      rfl
    rw [hcomp, List.map_id']
  have hdl : TelegramFileClient.download_file es s fh
      (s.telegram_messages.map (fun x => x.id))
      = .ok (B, { s with cached_files := setAssoc s.cached_files fh B }) := by
    unfold TelegramFileClient.download_file
    simp only [hcache, htm, hids, hrem, mkRemoteMsgs_fetch,
      mkRemoteMsgs_map_payload, hdec]
  unfold Operations.get_telegram_data
  simp only [hcache, hfil, getRowsList_ok _ hne, hdl]

/-- A read through a successful unique-row lookup slices the full content. -/
theorem read_flushed (es : EncScheme) (s : FsState) (fh offset length : Nat)
    (row : InodeRow) (B : List Nat) (s' : FsState)
    (hrow : getRowList (s.inodes.filter (fun r => r.id == fh)) = .ok row)
    (hgtd : Operations.get_telegram_data es s fh = (B, s')) :
    Operations.read es s fh offset length = .ok (pySlice B offset length, s') := by
  unfold Operations.read
  simp only [hrow, hgtd]

/-- C1, main case (non-empty B): write, release, reopen, read returns B. -/
theorem c1_flush_read (es : EncScheme) (B : List Nat) (hB : B ≠ [])
    (hdecC : (if es.keySet = true then es.dec (c1C es B) else some (c1C es B))
      = some B) :
    c1run es B = .ok B := by
  have step : c1run es B =
      (match Operations.release es { c1s1 with write_buffer := B } 2 with
       | Except.error e => (Except.error e : Except FsErr (List Nat))
       | Except.ok (s3, _tr) =>
         match Operations.read es (Operations.openUpcall s3 2).2 2 0 B.length with
         | Except.error e => Except.error e
         | Except.ok (dat, _s4) => Except.ok dat) := rfl
  rw [step, c1_release_eq es B hB]
  show (match Operations.read es (Operations.openUpcall (c1s4 es B) 2).2 2 0 B.length with
        | Except.error e => (Except.error e : Except FsErr (List Nat))
        | Except.ok (dat, _s4) => Except.ok dat) = .ok B
  have hgtd : Operations.get_telegram_data es (Operations.openUpcall (c1s4 es B) 2).2 2
      = (B, { (Operations.openUpcall (c1s4 es B) 2).2 with
              cached_files := setAssoc (Operations.openUpcall (c1s4 es B) 2).2.cached_files 2 B }) := by
    apply get_telegram_data_flushed es (Operations.openUpcall (c1s4 es B) 2).2 2 0
      (TelegramFileClient.uploadChunks (c1C es B)) B (uploadChunks_ne_nil _)
    · rfl
    · rfl
    · exact delete_messages_nil _
    · rw [uploadChunks_flatten]
      exact hdecC
  have hrd := read_flushed es (Operations.openUpcall (c1s4 es B) 2).2 2 0 B.length
    ⟨2, 0, 0, 33188, 0, 0, 0, none, B.length, 0⟩ B _ rfl hgtd
  rw [hrd]
  have hslice : pySlice B 0 B.length = B := by
    unfold pySlice
    rw [List.drop_zero, List.take_length]
  rw [hslice]

/-- C1.  Write-read round trip: writing any byte sequence B at offset 0 to a
freshly created (empty, never-flushed) file, releasing (which flushes,
uploads, and records the new message ids and size), reopening and reading
len(B) bytes from offset 0 returns exactly B, for any encryption scheme whose
decryption inverts encryption when a key is configured (and with no key, the
payload is stored in clear). -/
theorem c1_write_read_roundtrip (es : EncScheme)
    (hdec : es.keySet = true → ∀ b, es.dec (es.enc b) = some b)
    (B : List Nat) : c1run es B = .ok B := by
  by_cases hB : B = []
  · subst hB
    rfl
  · apply c1_flush_read es B hB
    unfold c1C
    by_cases hk : es.keySet = true
    · rw [if_pos hk, if_pos hk, hdec hk B]
    · rw [if_neg hk, if_neg hk]

/-- C1 witness: the round trip at a concrete key-configured scheme and a
concrete byte sequence. -/
theorem c1_write_read_roundtrip_witness : c1run esEnc [5, 6, 7] = .ok [5, 6, 7] :=
  c1_write_read_roundtrip esEnc (fun _ b => rfl) [5, 6, 7]

/-- The root's self-referential directory entry. -/
def isDotdotRow (c : ContentsRow) : Prop :=
  c.name = dotdot ∧ c.inode = ROOT_INODE ∧ c.parent_inode = ROOT_INODE

/-- The root invariant of claim C8: the root inodes row exists and the
contents table holds a b'..' row whose inode and parent_inode are both the
root. -/
def rootInvariant (s : FsState) : Prop :=
  (∃ r ∈ s.inodes, r.id = ROOT_INODE) ∧ (∃ c ∈ s.contents, isDotdotRow c)

/-- A designated element survives a filter that keeps it. -/
theorem mem_filter_of_keep {α : Type} (l : List α) (q : α → Bool) (P : α → Prop)
    (h : ∃ c ∈ l, P c) (hq : ∀ c, P c → q c = true) : ∃ c ∈ l.filter q, P c := by
  obtain ⟨c, hc, hp⟩ := h
  exact ⟨c, List.mem_filter.mpr ⟨hc, hq c hp⟩, hp⟩

/-- A designated element survives a map that preserves its property. -/
theorem mem_map_of_pres {α : Type} (l : List α) (g : α → α) (P : α → Prop)
    (h : ∃ c ∈ l, P c) (hg : ∀ c, P c → P (g c)) : ∃ c ∈ l.map g, P c := by
  obtain ⟨c, hc, hp⟩ := h
  exact ⟨g c, List.mem_map_of_mem g hc, hg c hp⟩

/-- While the b'..' row exists, the root directory has at least one child. -/
theorem root_children_pos (s : FsState) (hinv : rootInvariant s) :
    0 < (s.contents.filter (fun c => c.parent_inode == ROOT_INODE)).length := by
  obtain ⟨c, hc, _h1, _h2, h3⟩ := hinv.2
  have hmem : c ∈ s.contents.filter (fun c => c.parent_inode == ROOT_INODE) :=
    List.mem_filter.mpr ⟨hc, by simp [h3]⟩
  exact List.length_pos.mpr (List.ne_nil_of_mem hmem)

/-- A successful getattr reports the queried inode number and the contents
reference count. -/
theorem getattr_fields (s : FsState) (i : Nat) (e : EntryAttributes)
    (h : Operations.getattr s i = .ok e) :
    e.st_ino = i ∧ e.st_nlink = (s.contents.filter (fun c => c.inode == i)).length := by
  unfold Operations.getattr at h
  split at h
  · exact absurd h (by simp)
  · exact absurd h (by simp)
  · rw [Except.ok.injEq] at h
    rw [← h]
    exact ⟨rfl, rfl⟩

/-- Looking up b'..' under the root resolves to the root inode: the generic
lookup branch finds the unique (b'..', ROOT) contents row, which by the
invariant is the self-referential one. -/
theorem lookup_dotdot_root (s : FsState) (hinv : rootInvariant s)
    (e : EntryAttributes) (h : Operations.lookup s ROOT_INODE dotdot = .ok e) :
    e.st_ino = ROOT_INODE := by
  unfold Operations.lookup at h
  simp only [pyStrEqBytes, Bool.false_eq_true, if_false] at h
  cases hf : getRowList (s.contents.filter
      (fun c => c.name == dotdot && c.parent_inode == ROOT_INODE)) with
  | error err =>
    simp only [hf] at h
    cases err <;> simp at h
  | ok row =>
    simp only [hf] at h
    have hrow : row.inode = ROOT_INODE := by
      have hl := getRowList_ok _ _ hf
      obtain ⟨c, hc, h1, h2, h3⟩ := hinv.2
      have hcmem : c ∈ s.contents.filter
          (fun c => c.name == dotdot && c.parent_inode == ROOT_INODE) :=
        List.mem_filter.mpr ⟨hc, by simp [h1, h3]⟩
      rw [hl, List.mem_singleton] at hcmem
      rw [← hcmem, h2]
    rw [(getattr_fields _ _ _ h).1, hrow]

/-- download_file never touches the inodes or contents tables. -/
theorem download_file_tables (es : EncScheme) (s : FsState) (fh : Nat)
    (ids : List Nat) (buf : List Nat) (s1 : FsState)
    (h : TelegramFileClient.download_file es s fh ids = .ok (buf, s1)) :
    s1.inodes = s.inodes ∧ s1.contents = s.contents := by
  unfold TelegramFileClient.download_file at h
  split at h
  · rw [Except.ok.injEq, Prod.mk.injEq] at h
    rw [← h.2]
    exact ⟨rfl, rfl⟩
  · split at h
    · exact absurd h (by simp)
    · split at h
      · dsimp only [] at h
        split at h
        · exact absurd h (by simp)
        · rw [Except.ok.injEq, Prod.mk.injEq] at h
          rw [← h.2]
          exact ⟨rfl, rfl⟩
      · dsimp only [] at h
        rw [Except.ok.injEq, Prod.mk.injEq] at h
        rw [← h.2]
        exact ⟨rfl, rfl⟩

/-- get_telegram_data never touches the inodes or contents tables. -/
theorem get_telegram_data_tables (es : EncScheme) (s : FsState) (fh : Nat) :
    (Operations.get_telegram_data es s fh).2.inodes = s.inodes ∧
    (Operations.get_telegram_data es s fh).2.contents = s.contents := by
  unfold Operations.get_telegram_data
  split
  · exact ⟨rfl, rfl⟩
  · split
    · exact ⟨rfl, rfl⟩
    · split
      · exact ⟨rfl, rfl⟩
      · rename_i buf s1 heq
        exact download_file_tables es s fh _ buf s1 heq

/-- The root inode row survives an id-preserving SQL UPDATE. -/
theorem rootInvariant_updateInode (s : FsState) (i : Nat) (f : InodeRow → InodeRow)
    (hf : ∀ r, (f r).id = r.id) (h : rootInvariant s) :
    rootInvariant (updateInode s i f) := by
  refine ⟨?_, h.2⟩
  apply mem_map_of_pres _ _ _ h.1
  intro r hr
  by_cases hc : r.id = i
  · simp only [hc, beq_self_eq_true, if_true]
    rw [hf]
    exact hr
  · have hbe : (r.id == i) = false := beq_eq_false_iff_ne.mpr hc
    simp only [hbe, Bool.false_eq_true, if_false]
    exact hr

/-- The root inode row survives a conditional id-preserving SQL UPDATE. -/
theorem rootInvariant_condUpdate (s : FsState) (b : Bool) (i : Nat)
    (f : InodeRow → InodeRow) (hf : ∀ r, (f r).id = r.id) (h : rootInvariant s) :
    rootInvariant (if b then updateInode s i f else s) := by
  cases b
  · exact h
  · exact rootInvariant_updateInode s i f hf h

/-- Transporting the invariant along table-equality. -/
theorem rootInvariant_of_tables (s t : FsState) (h1 : t.inodes = s.inodes)
    (h2 : t.contents = s.contents) (h : rootInvariant s) : rootInvariant t := by
  refine ⟨?_, ?_⟩
  · rw [h1]
    exact h.1
  · rw [h2]
    exact h.2

/-- open only bumps the open count. -/
theorem stepPres_open (s : FsState) (i : Nat) (h : rootInvariant s) :
    rootInvariant (Operations.openUpcall s i).2 :=
  rootInvariant_of_tables s _ rfl rfl h

/-- read only touches the content cache. -/
theorem stepPres_read (es : EncScheme) (s : FsState) (fh off len : Nat)
    (d : List Nat) (s' : FsState) (h : Operations.read es s fh off len = .ok (d, s'))
    (hinv : rootInvariant s) : rootInvariant s' := by
  unfold Operations.read at h
  obtain ⟨hg1, hg2⟩ := get_telegram_data_tables es s fh
  split at h
  · exact absurd h (by simp)
  · dsimp only [] at h
    rw [Except.ok.injEq, Prod.mk.injEq] at h
    rw [← h.2]
    exact rootInvariant_of_tables s _ hg1 hg2 hinv

/-- write only touches the write buffer and the content cache. -/
theorem stepPres_write (es : EncScheme) (s : FsState) (fh off : Nat)
    (buf : List Nat) (n : Nat) (s' : FsState)
    (h : Operations.write es s fh off buf = .ok (n, s'))
    (hinv : rootInvariant s) : rootInvariant s' := by
  unfold Operations.write at h
  obtain ⟨hg1, hg2⟩ := get_telegram_data_tables es s fh
  split at h
  · split at h
    · exact absurd h (by simp)
    · dsimp only [] at h
      split at h
      all_goals
        rw [Except.ok.injEq, Prod.mk.injEq] at h
        rw [← h.2]
        exact rootInvariant_of_tables s _ hg1 hg2 hinv
  · dsimp only [] at h
    split at h
    all_goals
      rw [Except.ok.injEq, Prod.mk.injEq] at h
      rw [← h.2]
      exact rootInvariant_of_tables s _ rfl rfl hinv

/-- A successful contents INSERT appends a row, keeping the b'..' row. -/
theorem insertContents_preserves (s : FsState) (n : List Nat) (i p : Nat)
    (s' : FsState) (h : insertContents s n i p = .ok s')
    (hinv : rootInvariant s) : rootInvariant s' := by
  unfold insertContents at h
  split at h
  · exact absurd h (by simp)
  · rw [Except.ok.injEq] at h
    rw [← h]
    obtain ⟨c, hc, hprop⟩ := hinv.2
    exact ⟨hinv.1, ⟨c, List.mem_append_left _ hc, hprop⟩⟩

/-- The invariant survives appending an inode row. -/
theorem rootInvariant_appendInode (s : FsState) (l : List InodeRow)
    (hinv : rootInvariant s) :
    rootInvariant { s with inodes := s.inodes ++ l } := by
  obtain ⟨r, hr, hid⟩ := hinv.1
  exact ⟨⟨r, List.mem_append_left _ hr, hid⟩, hinv.2⟩

/-- _create appends an inode row and a contents row. -/
theorem stepPres_create_core (s : FsState) (p : Nat) (n : List Nat)
    (mode cu cg now rdev : Nat) (tgt : Option (List Nat)) (e : EntryAttributes)
    (s' : FsState)
    (h : Operations._create s p n mode cu cg now rdev tgt = .ok (e, s'))
    (hinv : rootInvariant s) : rootInvariant s' := by
  unfold Operations._create at h
  split at h
  · exact absurd h (by simp)
  · split at h
    · exact absurd h (by simp)
    · dsimp only [] at h
      split at h
      · exact absurd h (by simp)
      · rename_i s2 heq
        obtain ⟨a, hg, hb⟩ := except_map_ok _ _ _ h
        have hs : s' = s2 := congrArg Prod.snd hb
        rw [hs]
        exact insertContents_preserves _ _ _ _ _ heq (rootInvariant_appendInode s _ hinv)

/-- create = _create plus an open-count bump. -/
theorem stepPres_create (s : FsState) (p : Nat) (n : List Nat)
    (mode cu cg now : Nat) (fh : Nat) (e : EntryAttributes) (s' : FsState)
    (h : Operations.create s p n mode cu cg now = .ok (fh, e, s'))
    (hinv : rootInvariant s) : rootInvariant s' := by
  unfold Operations.create at h
  split at h
  · exact absurd h (by simp)
  · rename_i e1 s1 heq
    rw [Except.ok.injEq, Prod.mk.injEq, Prod.mk.injEq] at h
    rw [← h.2.2]
    exact rootInvariant_of_tables s1 _ rfl rfl
      (stepPres_create_core _ _ _ _ _ _ _ _ _ _ _ heq hinv)

/-- link appends a contents row. -/
theorem stepPres_link (s : FsState) (i p : Nat) (n : List Nat)
    (e : EntryAttributes) (s' : FsState)
    (h : Operations.link s i p n = .ok (e, s')) (hinv : rootInvariant s) :
    rootInvariant s' := by
  unfold Operations.link at h
  split at h
  · exact absurd h (by simp)
  · split at h
    · exact absurd h (by simp)
    · split at h
      · exact absurd h (by simp)
      · rename_i s1 heq
        obtain ⟨a, hg, hb⟩ := except_map_ok _ _ _ h
        have hs : s' = s1 := congrArg Prod.snd hb
        rw [hs]
        exact insertContents_preserves _ _ _ _ _ heq hinv

/-- setattr is a chain of id-preserving UPDATEs over the get_telegram_data
state. -/
theorem stepPres_setattr (es : EncScheme) (s : FsState) (i : Nat) (a : Attr)
    (flds : SetattrFields) (fh now : Nat) (e : EntryAttributes) (s' : FsState)
    (h : Operations.setattr es s i a flds fh now = .ok (e, s'))
    (hinv : rootInvariant s) : rootInvariant s' := by
  dsimp only [Operations.setattr] at h
  obtain ⟨a1, hg, hb⟩ := except_map_ok _ _ _ h
  have hs : s' = _ := congrArg Prod.snd hb
  rw [hs]
  obtain ⟨hg1, hg2⟩ := get_telegram_data_tables es s fh
  have h0 : rootInvariant (if flds.update_size then
      updateInode (Operations.get_telegram_data es s fh).2 i
        (fun r => { r with size := a.st_size }) else s) := by
    split
    · exact rootInvariant_updateInode _ _ _ (fun r => rfl)
        (rootInvariant_of_tables s _ hg1 hg2 hinv)
    · exact hinv
  have h1 := rootInvariant_condUpdate _ flds.update_mode i
    (fun r => { r with mode := a.st_mode }) (fun r => rfl) h0
  have h2 := rootInvariant_condUpdate _ flds.update_uid i
    (fun r => { r with uid := a.st_uid }) (fun r => rfl) h1
  have h3 := rootInvariant_condUpdate _ flds.update_gid i
    (fun r => { r with gid := a.st_gid }) (fun r => rfl) h2
  have h4 := rootInvariant_condUpdate _ flds.update_atime i
    (fun r => { r with atime_ns := a.st_atime_ns }) (fun r => rfl) h3
  have h5 := rootInvariant_condUpdate _ flds.update_mtime i
    (fun r => { r with mtime_ns := a.st_mtime_ns }) (fun r => rfl) h4
  split
  · exact rootInvariant_updateInode _ _ _ (fun r => rfl) h5
  · exact rootInvariant_updateInode _ _ _ (fun r => rfl) h5

/-- The b'..' row does not match a (name, parent) pattern other than
(b'..', ROOT). -/
theorem dotdot_match_false (c : ContentsRow) (hc : isDotdotRow c)
    (n : List Nat) (p : Nat) (hnd : ¬(n = dotdot ∧ p = ROOT_INODE)) :
    (c.name == n && c.parent_inode == p) = false := by
  obtain ⟨h1, _h2, h3⟩ := hc
  rw [h1, h3]
  by_cases hn : n = dotdot
  · by_cases hp : p = ROOT_INODE
    · exact absurd ⟨hn, hp⟩ hnd
    · rw [beq_eq_false_iff_ne.mpr (fun hh => hp hh.symm), Bool.and_false]
  · rw [beq_eq_false_iff_ne.mpr (fun hh => hn hh.symm), Bool.false_and]

/-- The b'..' row survives a DELETE keyed on a different (name, parent). -/
theorem dotdot_survives_del (l : List ContentsRow) (n : List Nat) (p : Nat)
    (h : ∃ c ∈ l, isDotdotRow c) (hnd : ¬(n = dotdot ∧ p = ROOT_INODE)) :
    ∃ c ∈ l.filter (fun c => !(c.name == n && c.parent_inode == p)), isDotdotRow c := by
  apply mem_filter_of_keep _ _ _ h
  intro c hc
  rw [dotdot_match_false c hc n p hnd]
  rfl

/-- The root inode row survives an id-preserving conditional row rewrite. -/
theorem rootId_mem_update (l : List InodeRow) (i : Nat) (f : InodeRow → InodeRow)
    (hf : ∀ r, (f r).id = r.id) (h : ∃ r ∈ l, r.id = ROOT_INODE) :
    ∃ r ∈ l.map (fun r => if r.id == i then f r else r), r.id = ROOT_INODE := by
  apply mem_map_of_pres _ _ _ h
  intro r hr
  by_cases hc : r.id = i
  · simp only [hc, beq_self_eq_true, if_true]
    rw [hf]
    exact hr
  · have hbe : (r.id == i) = false := beq_eq_false_iff_ne.mpr hc
    simp only [hbe, Bool.false_eq_true, if_false]
    exact hr

/-- _remove preserves the root invariant: a removal that would touch the
root's b'..' entry resolves to the root inode, whose ENOTEMPTY guard fires. -/
theorem remove_preserves (s : FsState) (p : Nat) (n : List Nat)
    (entry : EntryAttributes) (s' : FsState) (hinv : rootInvariant s)
    (hnp : n = dotdot → p = ROOT_INODE → entry.st_ino = ROOT_INODE)
    (h : Operations._remove s p n entry = .ok s') : rootInvariant s' := by
  unfold Operations._remove at h
  split at h
  · exact absurd h (by simp)
  · rename_i hch
    have hst : entry.st_ino ≠ ROOT_INODE := by
      intro hroot
      exact hch (by rw [hroot]; exact root_children_pos s hinv)
    have hnd : ¬(n = dotdot ∧ p = ROOT_INODE) := fun hand => hst (hnp hand.1 hand.2)
    have hkeep : ∀ r : InodeRow, r.id = ROOT_INODE → (r.id != entry.st_ino) = true := by
      intro r hr
      rw [hr]
      exact bne_iff_ne.mpr (fun hh => hst hh.symm)
    dsimp only [] at h
    rw [Except.ok.injEq] at h
    rw [← h]
    split
    · split
      · exact ⟨mem_filter_of_keep _ _ _ hinv.1 hkeep,
          dotdot_survives_del _ n p (dotdot_survives_del _ n p hinv.2 hnd) hnd⟩
      · exact ⟨mem_filter_of_keep _ _ _ hinv.1 hkeep,
          dotdot_survives_del _ n p hinv.2 hnd⟩
    · split
      · exact ⟨hinv.1, dotdot_survives_del _ n p hinv.2 hnd⟩
      · exact hinv

/-- unlink preserves the root invariant. -/
theorem stepPres_unlink (s : FsState) (p : Nat) (n : List Nat) (s' : FsState)
    (h : Operations.unlink s p n = .ok s') (hinv : rootInvariant s) :
    rootInvariant s' := by
  unfold Operations.unlink at h
  cases hl : Operations.lookup s p n with
  | error e =>
    simp only [hl] at h
    exact absurd h (by simp)
  | ok entry =>
    simp only [hl] at h
    split at h
    · exact absurd h (by simp)
    · refine remove_preserves s p n entry s' hinv ?_ h
      intro hn hp
      subst hn
      subst hp
      exact lookup_dotdot_root s hinv entry hl

/-- rmdir preserves the root invariant. -/
theorem stepPres_rmdir (s : FsState) (p : Nat) (n : List Nat) (s' : FsState)
    (h : Operations.rmdir s p n = .ok s') (hinv : rootInvariant s) :
    rootInvariant s' := by
  unfold Operations.rmdir at h
  cases hl : Operations.lookup s p n with
  | error e =>
    simp only [hl] at h
    exact absurd h (by simp)
  | ok entry =>
    simp only [hl] at h
    split at h
    · exact absurd h (by simp)
    · refine remove_preserves s p n entry s' hinv ?_ h
      intro hn hp
      subst hn
      subst hp
      exact lookup_dotdot_root s hinv entry hl

/-- The b'..' row is unchanged by the retarget UPDATE of _replace when the
destination is not (b'..', ROOT). -/
theorem dotdot_survives_retarget (l : List ContentsRow) (n2 : List Nat) (p2 : Nat)
    (ino : Nat) (h : ∃ c ∈ l, isDotdotRow c) (hnd : ¬(n2 = dotdot ∧ p2 = ROOT_INODE)) :
    ∃ c ∈ l.map (fun (c : ContentsRow) =>
      if c.name == n2 && c.parent_inode == p2 then { c with inode := ino } else c),
      isDotdotRow c := by
  apply mem_map_of_pres _ _ _ h
  intro c hc
  simp only [dotdot_match_false c hc n2 p2 hnd, Bool.false_eq_true, if_false]
  exact hc

/-- _replace preserves the root invariant when the source is not the root's
b'..' entry; a destination resolving to the root hits the ENOTEMPTY guard. -/
theorem replace_preserves (s : FsState) (p1 : Nat) (n1 : List Nat) (p2 : Nat)
    (n2 : List Nat) (eo en : EntryAttributes) (s' : FsState)
    (hinv : rootInvariant s)
    (hnp1 : ¬(n1 = dotdot ∧ p1 = ROOT_INODE))
    (hnp2 : n2 = dotdot → p2 = ROOT_INODE → en.st_ino = ROOT_INODE)
    (h : Operations._replace s p1 n1 p2 n2 eo en = .ok s') : rootInvariant s' := by
  unfold Operations._replace at h
  split at h
  · exact absurd h (by simp)
  · rename_i hch
    have hst : en.st_ino ≠ ROOT_INODE := by
      intro hroot
      exact hch (by rw [hroot]; exact root_children_pos s hinv)
    have hnd2 : ¬(n2 = dotdot ∧ p2 = ROOT_INODE) := fun hand => hst (hnp2 hand.1 hand.2)
    have hcont : ∃ c ∈ ((s.contents.map (fun (c : ContentsRow) =>
        if c.name == n2 && c.parent_inode == p2 then { c with inode := eo.st_ino }
        else c)).filter (fun c => !(c.name == n1 && c.parent_inode == p1))),
        isDotdotRow c :=
      dotdot_survives_del _ n1 p1 (dotdot_survives_retarget _ n2 p2 _ hinv.2 hnd2) hnp1
    dsimp only [] at h
    split at h
    · rw [Except.ok.injEq] at h
      rw [← h]
      refine ⟨?_, hcont⟩
      apply mem_filter_of_keep _ _ _ hinv.1
      intro r hr
      rw [hr]
      exact bne_iff_ne.mpr (fun hh => hst hh.symm)
    · rw [Except.ok.injEq] at h
      rw [← h]
      exact ⟨hinv.1, hcont⟩

/-- rename preserves the root invariant provided the source is not the root's
own b'..' entry (renaming that entry is the counterexample to the claim). -/
theorem stepPres_rename (s : FsState) (p1 : Nat) (n1 : List Nat) (p2 : Nat)
    (n2 : List Nat) (fl : Nat) (s' : FsState)
    (hroot : ¬(n1 = dotdot ∧ p1 = ROOT_INODE))
    (h : Operations.rename s p1 n1 p2 n2 fl = .ok s') (hinv : rootInvariant s) :
    rootInvariant s' := by
  unfold Operations.rename at h
  split at h
  · exact absurd h (by simp)
  · cases hl1 : Operations.lookup s p1 n1 with
    | error e =>
      simp only [hl1] at h
      exact absurd h (by simp)
    | ok eo =>
      simp only [hl1] at h
      cases hl2 : Operations.lookup s p2 n2 with
      | error e2 =>
        simp only [hl2] at h
        cases e2 with
        | fuse ec =>
          dsimp only [] at h
          split at h
          · exact absurd h (by simp)
          · rw [Except.ok.injEq] at h
            rw [← h]
            refine ⟨hinv.1, ?_⟩
            apply mem_map_of_pres _ _ _ hinv.2
            intro c hc
            simp only [dotdot_match_false c hc n1 p1 hroot, Bool.false_eq_true, if_false]
            exact hc
        | noSuchRow => simp at h
        | noUniqueValue => simp at h
        | uniqueViolation => simp at h
        | invalidToken => simp at h
        | downloadError => simp at h
      | ok en =>
        simp only [hl2] at h
        refine replace_preserves s p1 n1 p2 n2 eo en s' hinv hroot ?_ h
        intro hn hp
        subst hn
        subst hp
        exact lookup_dotdot_root s hinv en hl2

/-- While the b'..' row exists, getattr on the root reports a nonzero link
count, so release's deferred-deletion branch never fires for the root. -/
theorem root_nlink_pos (s : FsState) (e : EntryAttributes)
    (hinv : rootInvariant s) (hg : Operations.getattr s ROOT_INODE = .ok e) :
    e.st_nlink ≠ 0 := by
  obtain ⟨c, hc, _h1, h2, _h3⟩ := hinv.2
  have hmem : c ∈ s.contents.filter (fun c => c.inode == ROOT_INODE) :=
    List.mem_filter.mpr ⟨hc, by simp [h2]⟩
  rw [(getattr_fields _ _ _ hg).2]
  exact Nat.pos_iff_ne_zero.mp (List.length_pos.mpr (List.ne_nil_of_mem hmem))

/-- release preserves the root invariant: the flush updates only the size
column, and the deferred inode deletion is guarded by st_nlink == 0, which is
impossible for the root while its b'..' row exists. -/
theorem stepPres_release (es : EncScheme) (s : FsState) (fh : Nat)
    (s' : FsState) (tr : List Operations.RelEvent)
    (h : Operations.release es s fh = .ok (s', tr)) (hinv : rootInvariant s) :
    rootInvariant s' := by
  dsimp only [Operations.release] at h
  split at h
  · exact absurd h (by simp)
  · rename_i s1 tr1 heq
    have hinva : rootInvariant s1 := by
      split at heq
      · split at heq
        · exact absurd heq (by simp)
        · rw [Except.ok.injEq, Prod.mk.injEq] at heq
          rw [← heq.1]
          exact rootInvariant_updateInode _ fh _ (fun r => rfl)
            (rootInvariant_of_tables s _ rfl rfl hinv)
      · rw [Except.ok.injEq, Prod.mk.injEq] at heq
        rw [← heq.1]
        exact rootInvariant_of_tables s _ rfl rfl hinv
    split at h
    · split at h
      · exact absurd h (by simp)
      · rename_i entry hg
        split at h
        · rename_i hnl
          rw [Except.ok.injEq, Prod.mk.injEq] at h
          rw [← h.1]
          have hfh : fh ≠ ROOT_INODE := by
            intro hroot
            subst hroot
            exact root_nlink_pos _ entry
              (rootInvariant_of_tables s1 _ rfl rfl hinva) hg (by simpa using hnl)
          refine ⟨?_, hinva.2⟩
          apply mem_filter_of_keep _ _ _ hinva.1
          intro r hr
          rw [hr]
          exact bne_iff_ne.mpr (fun hh => hfh hh.symm)
        · rw [Except.ok.injEq, Prod.mk.injEq] at h
          rw [← h.1]
          exact ⟨hinva.1, hinva.2⟩
    · rw [Except.ok.injEq, Prod.mk.injEq] at h
      rw [← h.1]
      exact hinva

/-- One successful mutating upcall of the filesystem.  The read-only upcalls
(lookup, getattr, readlink, readdir, opendir, access, statfs) do not change
the state in the embedding, so they are covered by the reflexive closure.
The rename constructor carries the amended side condition: the source must
not be the root's own b'..' entry (renaming that entry succeeds in the code
and destroys the invariant — the C8 counterexample). -/
inductive Step (es : EncScheme) : FsState → FsState → Prop where
  | openStep : ∀ (s : FsState) (i : Nat), Step es s (Operations.openUpcall s i).2
  | readStep : ∀ (s : FsState) (fh off len : Nat) (d : List Nat) (s' : FsState),
      Operations.read es s fh off len = .ok (d, s') → Step es s s'
  | writeStep : ∀ (s : FsState) (fh off : Nat) (buf : List Nat) (n : Nat)
      (s' : FsState), Operations.write es s fh off buf = .ok (n, s') → Step es s s'
  | createStep : ∀ (s : FsState) (p : Nat) (n : List Nat) (mode cu cg now fh : Nat)
      (e : EntryAttributes) (s' : FsState),
      Operations.create s p n mode cu cg now = .ok (fh, e, s') → Step es s s'
  | mknodStep : ∀ (s : FsState) (p : Nat) (n : List Nat) (mode rdev cu cg now : Nat)
      (e : EntryAttributes) (s' : FsState),
      Operations.mknod s p n mode rdev cu cg now = .ok (e, s') → Step es s s'
  | mkdirStep : ∀ (s : FsState) (p : Nat) (n : List Nat) (mode cu cg now : Nat)
      (e : EntryAttributes) (s' : FsState),
      Operations.mkdir s p n mode cu cg now = .ok (e, s') → Step es s s'
  | symlinkStep : ∀ (s : FsState) (p : Nat) (n tgt : List Nat) (cu cg now : Nat)
      (e : EntryAttributes) (s' : FsState),
      Operations.symlink s p n tgt cu cg now = .ok (e, s') → Step es s s'
  | linkStep : ∀ (s : FsState) (i p : Nat) (n : List Nat) (e : EntryAttributes)
      (s' : FsState), Operations.link s i p n = .ok (e, s') → Step es s s'
  | setattrStep : ∀ (s : FsState) (i : Nat) (a : Attr) (flds : SetattrFields)
      (fh now : Nat) (e : EntryAttributes) (s' : FsState),
      Operations.setattr es s i a flds fh now = .ok (e, s') → Step es s s'
  | unlinkStep : ∀ (s : FsState) (p : Nat) (n : List Nat) (s' : FsState),
      Operations.unlink s p n = .ok s' → Step es s s'
  | rmdirStep : ∀ (s : FsState) (p : Nat) (n : List Nat) (s' : FsState),
      Operations.rmdir s p n = .ok s' → Step es s s'
  | renameStep : ∀ (s : FsState) (p1 : Nat) (n1 : List Nat) (p2 : Nat)
      (n2 : List Nat) (fl : Nat) (s' : FsState),
      ¬(n1 = dotdot ∧ p1 = ROOT_INODE) →
      Operations.rename s p1 n1 p2 n2 fl = .ok s' → Step es s s'
  | releaseStep : ∀ (s : FsState) (fh : Nat) (s' : FsState)
      (tr : List Operations.RelEvent),
      Operations.release es s fh = .ok (s', tr) → Step es s s'

/-- A sequence of successful upcalls. -/
def Steps (es : EncScheme) : FsState → FsState → Prop :=
  Relation.ReflTransGen (Step es)

/-- Each single upcall preserves the root invariant. -/
theorem step_preserves (es : EncScheme) (s t : FsState) (h : Step es s t)
    (hinv : rootInvariant s) : rootInvariant t := by
  cases h with
  | openStep i => exact stepPres_open s i hinv
  | readStep fh off len d s2 h1 => exact stepPres_read es s fh off len d t h1 hinv
  | writeStep fh off buf n s2 h1 => exact stepPres_write es s fh off buf n t h1 hinv
  | createStep p n mode cu cg now fh e s2 h1 =>
    exact stepPres_create s p n mode cu cg now fh e t h1 hinv
  | mknodStep p n mode rdev cu cg now e s2 h1 =>
    exact stepPres_create_core s p n mode cu cg now rdev none e t h1 hinv
  | mkdirStep p n mode cu cg now e s2 h1 =>
    exact stepPres_create_core s p n mode cu cg now 0 none e t h1 hinv
  | symlinkStep p n tgt cu cg now e s2 h1 =>
    exact stepPres_create_core s p n 41471 cu cg now 0 (some tgt) e t h1 hinv
  | linkStep i p n e s2 h1 => exact stepPres_link s i p n e t h1 hinv
  | setattrStep i a flds fh now e s2 h1 =>
    exact stepPres_setattr es s i a flds fh now e t h1 hinv
  | unlinkStep p n s2 h1 => exact stepPres_unlink s p n t h1 hinv
  | rmdirStep p n s2 h1 => exact stepPres_rmdir s p n t h1 hinv
  | renameStep p1 n1 p2 n2 fl s2 hroot h1 =>
    exact stepPres_rename s p1 n1 p2 n2 fl t hroot h1 hinv
  | releaseStep fh s2 tr h1 => exact stepPres_release es s fh t tr h1 hinv

/-- The freshly initialized filesystem satisfies the root invariant. -/
theorem rootInvariant_init (uid gid now : Nat) :
    rootInvariant (init_tables uid gid now) :=
  ⟨⟨⟨ROOT_INODE, uid, gid, rootMode, now, now, now, none, 0, 0⟩,
      List.mem_singleton.mpr rfl, rfl⟩,
   ⟨⟨1, dotdot, ROOT_INODE, ROOT_INODE⟩,
      List.mem_singleton.mpr rfl, rfl, rfl, rfl⟩⟩

/-- The state reached by the C8 counterexample: renaming the root's own b'..'
entry to (b'x', ROOT) succeeds and rewrites the only contents row. -/
def c8renamed : FsState :=
  { init_tables 0 0 0 with
    contents := [⟨1, [120], ROOT_INODE, ROOT_INODE⟩] }

/-- C8 counterexample.  On the freshly initialized filesystem the upcall
rename(parent=ROOT, name=b'..', parent_new=ROOT, name_new=b'x') succeeds and
renames the root's self-referential b'..' row, so afterwards no contents row
named b'..' exists and the root invariant claimed by the spec is violated. -/
theorem c8_root_invariant_counterexample :
    Operations.rename (init_tables 0 0 0) ROOT_INODE dotdot
      ROOT_INODE [120] 0 = .ok c8renamed ∧ ¬ rootInvariant c8renamed := by
  constructor
  · decide
  · intro hinv
    obtain ⟨c, hc, h1, _h2, _h3⟩ := hinv.2
    have hc2 : c = ⟨1, [120], ROOT_INODE, ROOT_INODE⟩ := List.mem_singleton.mp hc
    rw [hc2] at h1
    exact absurd h1 (by decide)

/-- C8 (amended).  After initialization, every sequence of successful upcalls
whose renames never take the root's own b'..' entry as source preserves the
root invariant: the root inodes row still exists and the contents table still
holds a b'..' row whose inode and parent_inode both equal the root id.
(Without the rename restriction the invariant fails: see the counterexample.) -/
theorem c8_root_invariant_amended (es : EncScheme) (uid gid now : Nat)
    (s' : FsState) (h : Steps es (init_tables uid gid now) s') :
    rootInvariant s' := by
  induction h with
  | refl => exact rootInvariant_init uid gid now
  | tail hab hbc ih => exact step_preserves es _ _ hbc ih

/-- C8 witness: a concrete one-step chain (an open upcall on the fresh
filesystem) reaching a state that the theorem certifies. -/
theorem c8_root_invariant_amended_witness :
    rootInvariant (Operations.openUpcall (init_tables 0 0 0) 1).2 :=
  c8_root_invariant_amended esId 0 0 0 _
    (Relation.ReflTransGen.single (Step.openStep _ 1))

end TgFuse
